import Mathlib

/-!
Verification development for the metric expression compiler of the
`plugin-data-comparison` repository.

The TypeScript sources are shallow-embedded:

* `src/services/metricParser.ts` — metric grammar parser and schema validator;
* `src/services/aggregateQueryBuilder.ts` (latest revision in the file) —
  aggregate expression compiler;
* `src/services/dataComparisonService.ts` (first revision of the unnamed
  source part) — result assembler;
* `src/commands/compare/data.ts` — cross-environment reconciler.

Conventions: thrown `SfError`s become `Except SfError`; plain thrown `Error`s
become `Except String`; JavaScript numbers are modelled as `ℚ`; `undefined`
becomes `Option.none`; `Set`/`Map` objects become insertion-ordered lists with
membership-guarded insertion, matching the iteration order the code relies on.
All strings handled by the program are ASCII, so `String.toLower`,
`String.trim` and `Char.isWhitespace` coincide with their JavaScript
counterparts on the inputs of interest.
-/

set_option maxRecDepth 8000

/-- ASCII-faithful `toLowerCase` that the kernel can evaluate (the core
`String.toLower` is defined by well-founded recursion over byte positions). -/
def toLowerStr (s : String) : String := String.mk (s.data.map Char.toLower)

/-- ASCII-faithful `toUpperCase` on the character list. -/
def toUpperStr (s : String) : String := String.mk (s.data.map Char.toUpper)

/-- `String.prototype.trim` on the character list. -/
def trimStr (s : String) : String :=
  String.mk (((s.data.dropWhile Char.isWhitespace).reverse.dropWhile Char.isWhitespace).reverse)

/-- `slice(n)` by characters. -/
def dropStr (s : String) (n : Nat) : String := String.mk (s.data.drop n)

/-- `slice(0, n)` by characters. -/
def takeStr (s : String) (n : Nat) : String := String.mk (s.data.take n)

/-- `startsWith` on the character list. -/
def startsWithStr (s p : String) : Bool := s.data.take p.data.length == p.data

/-- `endsWith` on the character list. -/
def endsWithStr (s p : String) : Bool := s.data.reverse.take p.data.length == p.data.reverse

/-- `slice(1, -1)` by characters. -/
def dropFirstLast (s : String) : String := String.mk ((s.data.drop 1).dropLast)

/-- `split(sep)` on a character list: JavaScript semantics, so the empty
string yields `[""]` and adjacent separators yield empty fragments. -/
def splitCharsOn (sep : Char) : List Char → List (List Char)
  | [] => [[]]
  | c :: rest =>
    let r := splitCharsOn sep rest
    if c = sep then [] :: r
    else
      match r with
      | h :: t => (c :: h) :: t
      | [] => [[c]]

/-- `split(sep)` on strings. -/
def splitOnChar (sep : Char) (s : String) : List String :=
  (splitCharsOn sep s.data).map String.mk

/-- `Array.prototype.join(sep)`. -/
def joinSep (sep : String) : List String → String
  | [] => ""
  | [x] => x
  | x :: rest => x ++ sep ++ joinSep sep rest

/-- Mirrors `SfError` as used by the sources: a message plus an error name. -/
structure SfError where
  message : String
  name : String
  deriving DecidableEq, Repr

/-- `MetricValueType` from metricParser.ts: `'number' | 'date'`. -/
inductive MetricValueType where
  | number
  | date
  deriving DecidableEq, Repr

/-- `SimpleAggregateFunction` from metricParser.ts. -/
inductive SimpleAggregateFunction where
  | sum
  | avg
  | min
  | max
  | median
  | stddev
  | variance
  deriving DecidableEq, Repr

/-- The lowercase wire name of an aggregate function (the TS enum is a string
union, so this is the value itself). -/
def fnName : SimpleAggregateFunction → String
  | .sum => "sum"
  | .avg => "avg"
  | .min => "min"
  | .max => "max"
  | .median => "median"
  | .stddev => "stddev"
  | .variance => "variance"

/-- `fn.toUpperCase()` as used when building SOQL and error messages. -/
def fnUpper : SimpleAggregateFunction → String
  | .sum => "SUM"
  | .avg => "AVG"
  | .min => "MIN"
  | .max => "MAX"
  | .median => "MEDIAN"
  | .stddev => "STDDEV"
  | .variance => "VARIANCE"

/-- `ParsedSimpleAggregate` from metricParser.ts. -/
structure ParsedSimpleAggregate where
  fn : SimpleAggregateFunction
  field : String
  deriving DecidableEq, Repr

/-- `ParsedMetric` from metricParser.ts (the `ratio` variant is named
`ratioOf` here). -/
inductive ParsedMetric where
  | count
  | fieldAggregate (aggregate : ParsedSimpleAggregate)
  | countDistinct (field : String)
  | ratioOf (numerator denominator : ParsedSimpleAggregate)
  | countIf (condition : String)
  | sumIf (field condition : String)
  deriving DecidableEq, Repr

/-- `ResolvedFieldAggregateMetric` from metricParser.ts.  The TS `label` is
optional but is always assigned (`field.label ?? field.name`), so it is a
plain `String` here. -/
structure ResolvedFieldAggregateMetric where
  fn : SimpleAggregateFunction
  field : String
  fieldType : String
  label : String
  valueType : MetricValueType
  deriving DecidableEq, Repr

/-- `ResolvedMetric` from metricParser.ts (the `ratio` variant is named
`ratioOf` here). -/
inductive ResolvedMetric where
  | count (valueType : MetricValueType)
  | fieldAggregate (m : ResolvedFieldAggregateMetric)
  | countDistinct (field fieldType label : String) (valueType : MetricValueType)
  | ratioOf (label : String) (numerator denominator : ResolvedFieldAggregateMetric)
      (valueType : MetricValueType)
  | countIf (condition : String) (valueType : MetricValueType)
  | sumIf (field fieldType condition label : String) (valueType : MetricValueType)
  deriving DecidableEq, Repr

/-- The `valueType` carried by every `ResolvedMetric` variant. -/
def ResolvedMetric.valueTypeOf : ResolvedMetric → MetricValueType
  | .count vt => vt
  | .fieldAggregate m => m.valueType
  | .countDistinct _ _ _ vt => vt
  | .ratioOf _ _ _ vt => vt
  | .countIf _ vt => vt
  | .sumIf _ _ _ _ vt => vt

/-- Split a character list at the first occurrence of `sep`; `none` when the
separator is absent.  This mirrors `indexOf` + the two `slice` calls used all
over metricParser.ts. -/
def breakAtFirst (sep : Char) : List Char → Option (List Char × List Char)
  | [] => none
  | c :: cs =>
    if c = sep then some ([], cs)
    else match breakAtFirst sep cs with
      | none => none
      | some (a, b) => some (c :: a, b)

/-- String façade over `breakAtFirst`. -/
def splitFirst (sep : Char) (s : String) : Option (String × String) :=
  match breakAtFirst sep s.data with
  | none => none
  | some (a, b) => some (String.mk a, String.mk b)

/-- `SIMPLE_AGGREGATES.includes(fn)` from metricParser.ts, returning the
enum member on success. -/
def aggregateFromString (s : String) : Option SimpleAggregateFunction :=
  if s = "sum" then some .sum
  else if s = "avg" then some .avg
  else if s = "min" then some .min
  else if s = "max" then some .max
  else if s = "median" then some .median
  else if s = "stddev" then some .stddev
  else if s = "variance" then some .variance
  else none

/-- `parseSimpleAggregateToken` from metricParser.ts. -/
def parseSimpleAggregateToken (token : String) : Except SfError ParsedSimpleAggregate :=
  match splitFirst ':' token with
  | none =>
    .error ⟨"Aggregate metric \"" ++ token ++ "\" must specify a field.", "InvalidMetric"⟩
  | some (head, rest) =>
    match aggregateFromString (toLowerStr head) with
    | none =>
      .error ⟨"Unsupported aggregate function \"" ++ head ++ "\".", "InvalidMetric"⟩
    | some fn =>
      let field := trimStr rest
      if field = "" then
        .error ⟨"Aggregate metric \"" ++ token ++ "\" must specify a non-empty field.",
          "InvalidMetric"⟩
      else .ok ⟨fn, field⟩

/-- `parseMetricToken` from metricParser.ts.  The keyword tests run on the
lowercased token while the payload is sliced from the original token, exactly
as in the source (ASCII lowercasing preserves length, so `drop` by the prefix
length matches `slice`). -/
def parseMetricToken (token : String) : Except SfError ParsedMetric :=
  let lower := toLowerStr token
  if lower = "count" then .ok .count
  else if startsWithStr lower "count-distinct:" then
    let field := trimStr (dropStr token "count-distinct:".length)
    if field = "" then
      .error ⟨"count-distinct metric requires a field name.", "InvalidMetric"⟩
    else .ok (.countDistinct field)
  else if startsWithStr lower "ratio:" then
    let body := dropStr token "ratio:".length
    match splitFirst '/' body with
    | none =>
      .error ⟨"ratio metric \"" ++ token ++ "\" must provide numerator and denominator.",
        "InvalidMetric"⟩
    | some (ntok, dtok) => do
      let numerator ← parseSimpleAggregateToken (trimStr ntok)
      let denominator ← parseSimpleAggregateToken (trimStr dtok)
      return .ratioOf numerator denominator
  else if startsWithStr lower "count-if:" then
    let condition := trimStr (dropStr token "count-if:".length)
    if condition = "" then
      .error ⟨"count-if metric requires a condition expression.", "InvalidMetric"⟩
    else .ok (.countIf condition)
  else if startsWithStr lower "sum-if:" then
    let body := dropStr token "sum-if:".length
    match splitFirst ':' body with
    | none =>
      .error ⟨"sum-if metric must follow sum-if:<field>:<condition>.", "InvalidMetric"⟩
    | some (f, c) =>
      let field := trimStr f
      let condition := trimStr c
      if field = "" ∨ condition = "" then
        .error ⟨"sum-if metric requires both field and condition.", "InvalidMetric"⟩
      else .ok (.sumIf field condition)
  else
    (parseSimpleAggregateToken token).map (fun a => .fieldAggregate a)

/-- The flattening step of `parseMetricTokens`: split every raw token on
commas, trim, and drop empty fragments (`undefined` input yields `[]`). -/
def flattenTokens (tokens : Option (List String)) : List String :=
  match tokens with
  | none => []
  | some ts => (((ts.map (fun t => splitOnChar ',' t)).flatten).map trimStr).filter
      (fun t => t.length > 0)

/-- `parseMetricTokens` from metricParser.ts.  An empty flattened list
defaults to the single `Count` metric; otherwise every fragment is parsed
fail-fast. -/
def parseMetricTokens (tokens : Option (List String)) : Except SfError (List ParsedMetric) :=
  let input := flattenTokens tokens
  if input.length = 0 then .ok [.count]
  else input.mapM parseMetricToken

/-- Field metadata shape consumed by the validator (`SimpleDescribeField`).
The optional `aggregatable?: boolean` is a `Bool` because the validator only
ever tests its truthiness (`undefined` behaves as `false`). -/
structure SimpleDescribeField where
  name : String
  label : Option String
  type : String
  aggregatable : Bool
  deriving DecidableEq, Repr

/-- `SimpleDescribeSObjectResult` from metricParser.ts. -/
structure SimpleDescribeSObjectResult where
  name : String
  fields : List SimpleDescribeField
  deriving DecidableEq, Repr

/-- `NUMERIC_TYPES` from metricParser.ts. -/
def NUMERIC_TYPES : List String := ["double", "currency", "percent", "int", "integer", "long"]

/-- `DATE_TYPES` from metricParser.ts. -/
def DATE_TYPES : List String := ["date", "datetime", "time"]

/-- `ensureField` from metricParser.ts: case-insensitive lookup by name. -/
def ensureField (describe : SimpleDescribeSObjectResult) (fieldName : String)
    (orgLabel : String) : Except SfError SimpleDescribeField :=
  let normalized := trimStr fieldName
  match describe.fields.find? (fun candidate => toLowerStr candidate.name == toLowerStr normalized) with
  | some field => .ok field
  | none =>
    .error ⟨"Field \"" ++ fieldName ++ "\" not found on object " ++ describe.name ++
      " in " ++ orgLabel ++ ".", "FieldNotFound"⟩

/-- `ensureAggregatableField` from metricParser.ts: requires the aggregatable
flag, then applies the per-function type gates (numeric for
sum/avg/median/stddev/variance, numeric-or-date for min/max). -/
def ensureAggregatableField (metric : ParsedSimpleAggregate) (field : SimpleDescribeField)
    (orgLabel : String) : Except SfError Unit :=
  if !field.aggregatable then
    .error ⟨"Field \"" ++ field.name ++ "\" in " ++ orgLabel ++
      " is not aggregatable for " ++ fnUpper metric.fn ++ " metric.", "NonAggregatableField"⟩
  else if (metric.fn = .sum ∨ metric.fn = .avg ∨ metric.fn = .median ∨
      metric.fn = .stddev ∨ metric.fn = .variance) ∧ ¬ NUMERIC_TYPES.contains field.type then
    .error ⟨"Field \"" ++ field.name ++ "\" in " ++ orgLabel ++ " must be numeric for " ++
      fnUpper metric.fn ++ " metric.", "UnsupportedFieldType"⟩
  else if (metric.fn = .min ∨ metric.fn = .max) ∧
      ¬ (NUMERIC_TYPES.contains field.type ∨ DATE_TYPES.contains field.type) then
    .error ⟨"Field \"" ++ field.name ++ "\" in " ++ orgLabel ++
      " must be numeric or date/time for " ++ fnUpper metric.fn ++ " metric.",
      "UnsupportedFieldType"⟩
  else .ok ()

/-- `resolveValueType` from metricParser.ts. -/
def resolveValueType (fn : SimpleAggregateFunction) (fieldType : String) : MetricValueType :=
  if (fn = .min ∨ fn = .max) ∧ DATE_TYPES.contains fieldType then .date else .number

/-- `resolveSimpleAggregate` from metricParser.ts. -/
def resolveSimpleAggregate (aggregate : ParsedSimpleAggregate)
    (describe : SimpleDescribeSObjectResult) (orgLabel : String) :
    Except SfError ResolvedFieldAggregateMetric := do
  let field ← ensureField describe aggregate.field orgLabel
  let _ ← ensureAggregatableField aggregate field orgLabel
  return { fn := aggregate.fn
           field := field.name
           fieldType := field.type
           label := field.label.getD field.name
           valueType := resolveValueType aggregate.fn field.type }

/-- `resolveMetric` from metricParser.ts.  Note that the `countDistinct`
branch calls `ensureAggregatableField` with a synthetic `{ fn: 'sum' }`
aggregate, exactly as the source does. -/
def resolveMetric (metric : ParsedMetric) (describe : SimpleDescribeSObjectResult)
    (orgLabel : String) : Except SfError ResolvedMetric :=
  match metric with
  | .count => .ok (.count .number)
  | .countDistinct f => do
    let field ← ensureField describe f orgLabel
    let _ ← ensureAggregatableField ⟨.sum, field.name⟩ field orgLabel
    return .countDistinct field.name field.type (field.label.getD field.name) .number
  | .fieldAggregate aggregate =>
    (resolveSimpleAggregate aggregate describe orgLabel).map (fun m => .fieldAggregate m)
  | .ratioOf n d => do
    let numerator ← resolveSimpleAggregate n describe orgLabel
    let denominator ← resolveSimpleAggregate d describe orgLabel
    return .ratioOf (fnUpper n.fn ++ "(" ++ numerator.field ++ ")/" ++
        fnUpper d.fn ++ "(" ++ denominator.field ++ ")")
      numerator denominator .number
  | .countIf condition =>
    if condition = "" then
      .error ⟨"count-if requires a condition expression.", "InvalidMetric"⟩
    else .ok (.countIf condition .number)
  | .sumIf f condition => do
    let field ← ensureField describe f orgLabel
    if ¬ NUMERIC_TYPES.contains field.type then
      .error ⟨"Field \"" ++ field.name ++ "\" in " ++ orgLabel ++
        " must be numeric for SUM-IF metric.", "UnsupportedFieldType"⟩
    else
      return .sumIf field.name field.type condition (field.label.getD field.name) .number

/-- `validateMetricsAgainstDescribe` from metricParser.ts (fail-fast map). -/
def validateMetricsAgainstDescribe (metrics : List ParsedMetric)
    (describe : SimpleDescribeSObjectResult) (orgLabel : String) :
    Except SfError (List ResolvedMetric) :=
  metrics.mapM (fun metric => resolveMetric metric describe orgLabel)

/-- `sanitizeAlias` from aggregateQueryBuilder.ts: every character outside
`[A-Za-z0-9_]` becomes an underscore. -/
def sanitizeAlias (value : String) : String :=
  String.mk (value.data.map (fun c => if c.isAlphanum || c == '_' then c else '_'))

/-- Decimal digits of `n`, least significant first, by repeated division;
the first argument is fuel (`n` itself is always enough). -/
def decDigitsGo : Nat → Nat → List Nat
  | 0, _ => []
  | fuel + 1, n => if n = 0 then [] else n % 10 :: decDigitsGo fuel (n / 10)

/-- Decimal digits of `n`, least significant first (`[]` for `0`). -/
def decDigits (n : Nat) : List Nat := decDigitsGo n n

/-- A single decimal digit as a character. -/
def digitToChar (d : Nat) : Char := Char.ofNat (48 + d)

/-- The decimal string of a natural number, modelling JavaScript's
number-to-string conversion of the (always integral, non-negative) alias
counter in `uniqueAlias`. -/
def decimalString (n : Nat) : String :=
  if n = 0 then "0" else String.mk ((decDigits n).reverse.map digitToChar)

/-- The candidate tried at the given attempt index by `uniqueAlias`:
`base` first, then `base_1`, `base_2`, … . -/
def aliasCandidate (base : String) : Nat → String
  | 0 => base
  | k + 1 => base ++ "_" ++ decimalString (k + 1)

/-- Fuelled loop of `uniqueAlias` from aggregateQueryBuilder.ts.  The source
loops `while (existing.has(candidate))`; since the candidates are pairwise
distinct (proved below), `existing.length + 1` attempts always reach a free
candidate, so the fuel-exhausted branch is unreachable. -/
def uniqueAliasGo (base : String) (existing : List String) : Nat → Nat → String
  | 0, attempt => aliasCandidate base attempt
  | fuel + 1, attempt =>
    let candidate := aliasCandidate base attempt
    if candidate ∈ existing then uniqueAliasGo base existing fuel (attempt + 1)
    else candidate

/-- `uniqueAlias` from aggregateQueryBuilder.ts (the mutation of the `Set` is
performed by the callers in this embedding). -/
def uniqueAlias (base : String) (existing : List String) : String :=
  uniqueAliasGo base existing (existing.length + 1) 0

/-- JavaScript `Set.add` on an insertion-ordered list. -/
def addToSet (x : String) (s : List String) : List String :=
  if x ∈ s then s else s ++ [x]

/-- `ParsedCondition` from aggregateQueryBuilder.ts (the operator is kept as
its source text). -/
structure ParsedCondition where
  field : String
  operator : String
  value : String
  quoted : Bool
  deriving DecidableEq, Repr

/-- The character class `[A-Za-z0-9_.]` of the condition regex. -/
def isFieldNameChar (c : Char) : Bool := c.isAlphanum || c == '_' || c == '.'

/-- Ordered operator alternation `(=|!=|<>|<=|>=|<|>)` of the condition
regex, returning the matched operator text and the remaining characters. -/
def matchComparisonOperator : List Char → Option (String × List Char)
  | '=' :: rest => some ("=", rest)
  | '!' :: '=' :: rest => some ("!=", rest)
  | '<' :: '>' :: rest => some ("<>", rest)
  | '<' :: '=' :: rest => some ("<=", rest)
  | '>' :: '=' :: rest => some (">=", rest)
  | '<' :: rest => some ("<", rest)
  | '>' :: rest => some (">", rest)
  | _ => none

/-- The trailing class `[)\s]` of the condition regex. -/
def isTrailingJunk (c : Char) : Bool := c == ')' || c.isWhitespace

/-- Matches `\s*(.+?)[)\s]*$` against the characters following the operator
and returns the captured value already trimmed (the source trims the raw
capture immediately).  The greedy `\s*`, the lazy `(.+?)` (at least one
character, as short as possible) and the greedy trailing class reduce to:
strip leading whitespace, then strip the maximal trailing run of `)` and
whitespace; if that leaves nothing, the lazy group backtracks to a single
character (a space when the remainder is all whitespace — trimmed to the
empty string — or the first `)` otherwise). -/
def matchConditionValue : List Char → Option String
  | [] => none
  | c :: rest =>
    let r1 := (c :: rest).dropWhile (fun ch => ch.isWhitespace)
    match r1 with
    | [] => some ""
    | c1 :: _ =>
      let p := (r1.reverse.dropWhile isTrailingJunk).reverse
      if p = [] then some (String.mk [c1]) else some (String.mk p)

/-- `parseSimpleCondition` from aggregateQueryBuilder.ts, a direct model of
`/^[\s(]*([A-Za-z0-9_.]+)\s*(=|!=|<>|<=|>=|<|>)\s*(.+?)[)\s]*$/`.  The
character classes of the consecutive regex pieces are pairwise disjoint at
every boundary, so the greedy pieces never need to backtrack and the match
can be computed left to right. -/
def parseSimpleCondition (condition : String) : Option ParsedCondition :=
  let afterOpen := condition.data.dropWhile (fun ch => ch.isWhitespace || ch == '(')
  let fieldChars := afterOpen.takeWhile isFieldNameChar
  if fieldChars = [] then none
  else
    let afterField := (afterOpen.drop fieldChars.length).dropWhile (fun ch => ch.isWhitespace)
    match matchComparisonOperator afterField with
    | none => none
    | some (op, rest) =>
      match matchConditionValue rest with
      | none => none
      | some v0 =>
        if (startsWithStr v0 "'" && endsWithStr v0 "'") || (startsWithStr v0 "\"" && endsWithStr v0 "\"") then
          some ⟨trimStr (String.mk fieldChars), op, dropFirstLast v0, true⟩
        else
          some ⟨trimStr (String.mk fieldChars), op, v0, false⟩

/-- `SOQL_NUMERIC_PATTERN`: `^[-+]?\d+(?:\.\d+)?$`. -/
def matchesNumericLiteral (s : String) : Bool :=
  let cs := match s.data with
    | c :: rest => if c == '-' || c == '+' then rest else s.data
    | [] => []
  let ip := cs.takeWhile Char.isDigit
  let rest := cs.drop ip.length
  !ip.isEmpty &&
    (match rest with
     | [] => true
     | '.' :: fp => !fp.isEmpty && fp.all Char.isDigit
     | _ => false)

/-- `SOQL_BOOLEAN_PATTERN`: `^(?:true|false)$` case-insensitively. -/
def matchesBooleanLiteral (s : String) : Bool :=
  toLowerStr s == "true" || toLowerStr s == "false"

/-- `SOQL_NULL_PATTERN`: `^null$` case-insensitively. -/
def matchesNullLiteral (s : String) : Bool := toLowerStr s == "null"

/-- The date keywords of `SOQL_DATE_LITERAL_PATTERN`. -/
def SOQL_DATE_LITERALS : List String :=
  ["TODAY", "YESTERDAY", "TOMORROW", "THIS_WEEK", "LAST_WEEK", "NEXT_WEEK",
   "THIS_MONTH", "LAST_MONTH", "NEXT_MONTH", "THIS_QUARTER", "LAST_QUARTER",
   "NEXT_QUARTER", "THIS_YEAR", "LAST_YEAR", "NEXT_YEAR"]

/-- `SOQL_DATE_LITERAL_PATTERN` (case-insensitive keyword alternation). -/
def matchesDateKeyword (s : String) : Bool := SOQL_DATE_LITERALS.contains (toUpperStr s)

/-- Consume exactly `n` decimal digits. -/
def expectDigits (n : Nat) (l : List Char) : Option (List Char) :=
  let d := l.take n
  if d.length = n ∧ d.all Char.isDigit then some (l.drop n) else none

/-- Consume one expected character. -/
def expectChar (c : Char) : List Char → Option (List Char)
  | x :: rest => if x = c then some rest else none
  | [] => none

/-- `SOQL_DATETIME_PATTERN`:
`^\d{4}-\d{2}-\d{2}T\d{2}:\d{2}:\d{2}(?:\.\d{3})?Z$`. -/
def matchesDatetimeLiteral (s : String) : Bool :=
  let core : Option (List Char) := do
    let r ← expectDigits 4 s.data
    let r ← expectChar '-' r
    let r ← expectDigits 2 r
    let r ← expectChar '-' r
    let r ← expectDigits 2 r
    let r ← expectChar 'T' r
    let r ← expectDigits 2 r
    let r ← expectChar ':' r
    let r ← expectDigits 2 r
    let r ← expectChar ':' r
    expectDigits 2 r
  match core with
  | none => false
  | some r =>
    match r with
    | ['Z'] => true
    | '.' :: rest =>
      (match expectDigits 3 rest with
       | some ['Z'] => true
       | _ => false)
    | _ => false

/-- `shouldQuote` from aggregateQueryBuilder.ts. -/
def shouldQuote (value : String) (alreadyQuoted : Bool) : Bool :=
  if alreadyQuoted then true
  else if matchesNumericLiteral value || matchesBooleanLiteral value ||
      matchesNullLiteral value || matchesDateKeyword value ||
      matchesDatetimeLiteral value then false
  else true

/-- `escapeSoqlLiteral` from aggregateQueryBuilder.ts: double backslashes
first, then escape single quotes (two passes, as in the source). -/
def escapeSoqlLiteral (value : String) : String :=
  let pass1 := ((value.data.map (fun c => if c = '\\' then ['\\', '\\'] else [c])).flatten)
  String.mk ((pass1.map (fun c => if c = '\'' then ['\\', '\''] else [c])).flatten)

/-- `normalizeCondition` from aggregateQueryBuilder.ts. -/
def normalizeCondition (condition : String) : String :=
  match parseSimpleCondition condition with
  | none => trimStr condition
  | some parsed =>
    let needsQuotes := shouldQuote parsed.value parsed.quoted
    let normalizedValue :=
      if needsQuotes then "'" ++ escapeSoqlLiteral parsed.value ++ "'" else parsed.value
    parsed.field ++ " " ++ parsed.operator ++ " " ++ normalizedValue

/-- `AggregateExpression` from aggregateQueryBuilder.ts. -/
structure AggregateExpression where
  aliasName : String
  soql : String
  valueType : MetricValueType
  deriving DecidableEq, Repr

/-- `MetricDefinition` from aggregateQueryBuilder.ts (the `ratio` variant is
named `ratioOf` here).  The TS type constrains the `direct` metric to
non-ratio kinds and the `ratio` metric to the ratio kind; the compiler
establishes this, so it is not baked into the embedding's type. -/
inductive MetricDefinition where
  | direct (metric : ResolvedMetric) (aliasName : String)
  | ratioOf (metric : ResolvedMetric) (numeratorAlias denominatorAlias aliasName : String)
  deriving DecidableEq, Repr

/-- The alias stored in a metric definition. -/
def MetricDefinition.aliasNameOf : MetricDefinition → String
  | .direct _ a => a
  | .ratioOf _ _ _ a => a

/-- The resolved metric stored in a metric definition. -/
def MetricDefinition.metricOf : MetricDefinition → ResolvedMetric
  | .direct m _ => m
  | .ratioOf m _ _ _ => m

/-- `ConditionalMetricPlan` from aggregateQueryBuilder.ts. -/
structure ConditionalMetricPlan where
  metric : ResolvedMetric
  aliasName : String
  aggregateQuery : String
  valueType : MetricValueType
  deriving DecidableEq, Repr

/-- `AggregatePlan` from aggregateQueryBuilder.ts. -/
structure AggregatePlan where
  objectName : String
  whereClause : Option String
  aggregateQuery : Option String
  expressions : List AggregateExpression
  metrics : List MetricDefinition
  conditionalMetrics : List ConditionalMetricPlan
  sampleFields : List String
  deriving DecidableEq, Repr

/-- `buildAggregateKey` on the `'fn' in metric` branch (field aggregates):
the deduplication key is the lowercase signature. -/
def buildAggregateKeyFA (m : ResolvedFieldAggregateMetric) : String :=
  fnName m.fn ++ "(" ++ m.field ++ ")"

/-- `buildAggregateKey` on the count-distinct branch. -/
def buildAggregateKeyCD (field : String) : String :=
  "COUNT_DISTINCT(" ++ field ++ ")"

/-- `buildAggregateExpression` from aggregateQueryBuilder.ts. -/
def buildAggregateExpression (m : ResolvedFieldAggregateMetric) : String :=
  fnUpper m.fn ++ "(" ++ m.field ++ ")"

/-- `hashCondition` from aggregateQueryBuilder.ts:
`sanitizeAlias(condition.toLowerCase()).slice(0, 40) || 'expr'`. -/
def hashCondition (condition : String) : String :=
  let h := takeStr (sanitizeAlias (toLowerStr condition)) 40
  if h = "" then "expr" else h

/-- `buildWhereClause` from aggregateQueryBuilder.ts (an empty or
whitespace-only filter means "no filter"; an empty string input is falsy in
the source and collapses to the same result). -/
def buildWhereClause (whereArg : Option String) : Option String :=
  match whereArg with
  | none => none
  | some w =>
    let trimmed := trimStr w
    if trimmed = "" then none else some trimmed

/-- `combineWhereClauses` from aggregateQueryBuilder.ts. -/
def combineWhereClauses (baseClause : Option String) (condition : String) : String :=
  let trimmedCondition := trimStr condition
  if trimmedCondition = "" then baseClause.getD ""
  else
    match baseClause with
    | none => trimmedCondition
    | some b =>
      if b = "" then trimmedCondition
      else "(" ++ b ++ ") AND (" ++ trimmedCondition ++ ")"

/-- `buildConditionalAggregateQuery` from aggregateQueryBuilder.ts.  The
aggregate expression is `COUNT(Id)` for `countIf` and `SUM(field)` for
`sumIf` (the only two kinds reaching it). -/
def buildConditionalAggregateQuery (objectName : String) (metric : ResolvedMetric)
    (aliasName : String) (baseWhereClause : Option String) (condition : String) : String :=
  let whereClause := combineWhereClauses baseWhereClause condition
  let aggregateExpression :=
    match metric with
    | .sumIf f _ _ _ _ => "SUM(" ++ f ++ ")"
    | _ => "COUNT(Id)"
  let whereSegment := if whereClause = "" then "" else " WHERE " ++ whereClause
  "SELECT " ++ aggregateExpression ++ " " ++ aliasName ++ " FROM " ++ objectName ++ whereSegment

/-- The mutable locals of `AggregateQueryBuilder.build`, threaded through the
metric loop as explicit state.  `cache` is the `expressionCache` `Map` as an
insertion-ordered association list. -/
structure BuilderState where
  aliasSet : List String
  metricAliasSet : List String
  cache : List (String × AggregateExpression)
  expressions : List AggregateExpression
  defs : List MetricDefinition
  conditionals : List ConditionalMetricPlan
  sampleFields : List String
  deriving DecidableEq, Repr

/-- The empty initial state of one `build()` invocation. -/
def initialBuilderState : BuilderState :=
  { aliasSet := [], metricAliasSet := [], cache := [], expressions := [], defs := [],
    conditionals := [], sampleFields := [] }

/-- `Map.get` on the expression cache. -/
def lookupKey (key : String) : List (String × AggregateExpression) → Option AggregateExpression
  | [] => none
  | (k, e) :: rest => if k = key then some e else lookupKey key rest

/-- The `addExpression` closure inside `build()`: reuse the cached expression
for an already-seen key, otherwise mint a fresh alias, record the expression
and return its alias. -/
def addExpression (st : BuilderState) (key soql baseAlias : String)
    (valueType : MetricValueType) : String × BuilderState :=
  match lookupKey key st.cache with
  | some cached => (cached.aliasName, st)
  | none =>
    let a := uniqueAlias baseAlias st.aliasSet
    let e : AggregateExpression := { aliasName := a, soql := soql, valueType := valueType }
    (a, { st with
            aliasSet := addToSet a st.aliasSet
            cache := st.cache ++ [(key, e)]
            expressions := st.expressions ++ [e] })

/-- One iteration of the `for (const metric of metrics)` loop of `build()`.
The `addDirectMetric` dispatch of the source is inlined into the three
non-ratio, non-conditional arms (it is a pure dispatch on the metric kind). -/
def buildStep (objectName : String) (baseWhereClause : Option String)
    (st : BuilderState) (metric : ResolvedMetric) : BuilderState :=
  match metric with
  | .ratioOf _ numerator denominator _ =>
    let r1 := addExpression st (buildAggregateKeyFA numerator)
      (buildAggregateExpression numerator)
      (sanitizeAlias (fnName numerator.fn ++ "__" ++ (toLowerStr numerator.field)))
      numerator.valueType
    let numeratorAlias := r1.1
    let st1 := r1.2
    let r2 := addExpression st1 (buildAggregateKeyFA denominator)
      (buildAggregateExpression denominator)
      (sanitizeAlias (fnName denominator.fn ++ "__" ++ (toLowerStr denominator.field)))
      denominator.valueType
    let denominatorAlias := r2.1
    let st2 := r2.2
    let st3 := { st2 with
      sampleFields := addToSet denominator.field (addToSet numerator.field st2.sampleFields) }
    let ralias := uniqueAlias
      (sanitizeAlias ("ratio__" ++ fnName numerator.fn ++ "_" ++ (toLowerStr numerator.field) ++
        "_" ++ fnName denominator.fn ++ "_" ++ (toLowerStr denominator.field)))
      st3.metricAliasSet
    { st3 with
      metricAliasSet := addToSet ralias st3.metricAliasSet
      defs := st3.defs ++ [.ratioOf metric numeratorAlias denominatorAlias ralias] }
  | .countIf condition vt =>
    let normalizedCondition := normalizeCondition condition
    let normalizedMetric : ResolvedMetric := .countIf normalizedCondition vt
    let baseAlias := sanitizeAlias ("countIf__" ++ hashCondition normalizedCondition)
    let a := uniqueAlias baseAlias st.aliasSet
    let q := buildConditionalAggregateQuery objectName normalizedMetric a baseWhereClause
      normalizedCondition
    { st with
      aliasSet := addToSet a st.aliasSet
      conditionals := st.conditionals ++
        [{ metric := normalizedMetric, aliasName := a, aggregateQuery := q, valueType := vt }]
      metricAliasSet := addToSet a st.metricAliasSet
      defs := st.defs ++ [.direct normalizedMetric a] }
  | .sumIf f fieldType condition label vt =>
    let normalizedCondition := normalizeCondition condition
    let normalizedMetric : ResolvedMetric := .sumIf f fieldType normalizedCondition label vt
    let baseAlias := sanitizeAlias ("sumIf__" ++ toLowerStr f ++ "_" ++
      hashCondition normalizedCondition)
    let a := uniqueAlias baseAlias st.aliasSet
    let q := buildConditionalAggregateQuery objectName normalizedMetric a baseWhereClause
      normalizedCondition
    { st with
      aliasSet := addToSet a st.aliasSet
      conditionals := st.conditionals ++
        [{ metric := normalizedMetric, aliasName := a, aggregateQuery := q, valueType := vt }]
      sampleFields := addToSet f st.sampleFields
      metricAliasSet := addToSet a st.metricAliasSet
      defs := st.defs ++ [.direct normalizedMetric a] }
  | .count vt =>
    let r := addExpression st "COUNT()" "COUNT(Id)" "count__all" vt
    let a := r.1
    let st1 := r.2
    { st1 with
      metricAliasSet := addToSet a st1.metricAliasSet
      defs := st1.defs ++ [.direct metric a] }
  | .fieldAggregate m =>
    let r := addExpression st (buildAggregateKeyFA m) (buildAggregateExpression m)
      (sanitizeAlias (fnName m.fn ++ "__" ++ (toLowerStr m.field))) m.valueType
    let a := r.1
    let st1 := r.2
    { st1 with
      sampleFields := addToSet m.field st1.sampleFields
      metricAliasSet := addToSet a st1.metricAliasSet
      defs := st1.defs ++ [.direct metric a] }
  | .countDistinct f fieldType label vt =>
    let r := addExpression st (buildAggregateKeyCD f) ("COUNT_DISTINCT(" ++ f ++ ")")
      (sanitizeAlias ("countDistinct__" ++ toLowerStr f)) vt
    let a := r.1
    let st1 := r.2
    { st1 with
      sampleFields := addToSet f st1.sampleFields
      metricAliasSet := addToSet a st1.metricAliasSet
      defs := st1.defs ++ [.direct (.countDistinct f fieldType label vt) a] }

/-- `AggregateQueryBuilder.build()` from aggregateQueryBuilder.ts (the
defensive empty-metric `Error` becomes `Except.error`). -/
def build (objectName : String) (metrics : List ResolvedMetric)
    (whereArg : Option String) : Except String AggregatePlan :=
  if metrics = [] then
    .error "At least one metric is required to build an aggregate query."
  else
    let baseWhereClause := buildWhereClause whereArg
    let st := metrics.foldl (buildStep objectName baseWhereClause) initialBuilderState
    let selectClause := joinSep ", "
      (st.expressions.map (fun e => e.soql ++ " " ++ e.aliasName))
    let aggregateQuery :=
      if selectClause.length > 0 then
        some ("SELECT " ++ selectClause ++ " FROM " ++ objectName ++
          (match baseWhereClause with
           | some w => " WHERE " ++ w
           | none => ""))
      else none
    .ok { objectName := objectName
          whereClause := baseWhereClause
          aggregateQuery := aggregateQuery
          expressions := st.expressions
          metrics := st.defs
          conditionalMetrics := st.conditionals
          sampleFields := st.sampleFields }

/-- A raw aggregate value as stored in an `OrgEvaluation.aggregates` record:
`number | string | null`, with JavaScript numbers modelled as `ℚ`. -/
inductive AggValue where
  | num (q : ℚ)
  | str (s : String)
  | nullV
  deriving DecidableEq, Repr

/-- `record[alias] ?? null` on an alias-keyed value map. -/
def lookupAgg (key : String) : List (String × AggValue) → AggValue
  | [] => .nullV
  | (k, v) :: rest => if k = key then v else lookupAgg key rest

/-- `computeDifference` from dataComparisonService.ts: `null` unless the
metric's value type is `number` and both sides are numbers; otherwise
target minus source. -/
def computeDifference (metric : ResolvedMetric) (sourceValue targetValue : AggValue) :
    Option ℚ :=
  if metric.valueTypeOf ≠ .number then none
  else
    match sourceValue, targetValue with
    | .num s, .num t => some (t - s)
    | _, _ => none

/-- `computeRatioValue` from dataComparisonService.ts: `null` unless both
sides are numbers and the denominator is non-zero; otherwise the quotient.
Division is total here, so a zero denominator cannot raise. -/
def computeRatioValue (numerator denominator : AggValue) : AggValue :=
  match numerator, denominator with
  | .num n, .num d => if d = 0 then .nullV else .num (n / d)
  | _, _ => .nullV

/-- `MetricComparisonRow` from dataComparisonService.ts. -/
structure MetricComparisonRow where
  metric : ResolvedMetric
  aliasName : String
  sourceValue : AggValue
  targetValue : AggValue
  difference : Option ℚ
  deriving DecidableEq, Repr

/-- `buildMetricRow` from dataComparisonService.ts. -/
def buildMetricRow (definition : MetricDefinition)
    (sourceAggregates targetAggregates : List (String × AggValue)) : MetricComparisonRow :=
  match definition with
  | .direct metric aliasName =>
    let sourceValue := lookupAgg aliasName sourceAggregates
    let targetValue := lookupAgg aliasName targetAggregates
    { metric := metric
      aliasName := aliasName
      sourceValue := sourceValue
      targetValue := targetValue
      difference := computeDifference metric sourceValue targetValue }
  | .ratioOf metric numeratorAlias denominatorAlias aliasName =>
    let sourceRatio := computeRatioValue (lookupAgg numeratorAlias sourceAggregates)
      (lookupAgg denominatorAlias sourceAggregates)
    let targetRatio := computeRatioValue (lookupAgg numeratorAlias targetAggregates)
      (lookupAgg denominatorAlias targetAggregates)
    { metric := metric
      aliasName := aliasName
      sourceValue := sourceRatio
      targetValue := targetRatio
      difference := computeDifference metric sourceRatio targetRatio }

/-- The row-assembly step of `compareData` from dataComparisonService.ts:
one comparison row per metric definition of the plan, in order. -/
def assembleRows (plan : AggregatePlan)
    (sourceAggregates targetAggregates : List (String × AggValue)) :
    List MetricComparisonRow :=
  plan.metrics.map (fun d => buildMetricRow d sourceAggregates targetAggregates)

/-- The metric kind discriminant used by `validateMetricPair`. -/
inductive MetricKind where
  | count
  | fieldAggregate
  | countDistinct
  | ratioK
  | countIf
  | sumIf
  deriving DecidableEq, Repr

/-- The `kind` tag of a resolved metric. -/
def ResolvedMetric.kindOf : ResolvedMetric → MetricKind
  | .count _ => .count
  | .fieldAggregate _ => .fieldAggregate
  | .countDistinct _ _ _ _ => .countDistinct
  | .ratioOf _ _ _ _ => .ratioK
  | .countIf _ _ => .countIf
  | .sumIf _ _ _ _ _ => .sumIf

/-- `validateFieldAggregate` from commands/compare/data.ts. -/
def validateFieldAggregate (metric : ResolvedFieldAggregateMetric)
    (targetMetric : ResolvedMetric) : Except SfError ResolvedMetric :=
  match targetMetric with
  | .fieldAggregate t =>
    if metric.field = t.field ∧ metric.fn = t.fn then .ok (.fieldAggregate metric)
    else
      .error ⟨"Metric field validation differs between source and target orgs.",
        "MetricValidationMismatch"⟩
  | _ =>
    .error ⟨"Metric field validation differs between source and target orgs.",
      "MetricValidationMismatch"⟩

/-- `validateCountDistinct` from commands/compare/data.ts. -/
def validateCountDistinct (metric : ResolvedMetric) (field : String)
    (targetMetric : ResolvedMetric) : Except SfError ResolvedMetric :=
  match targetMetric with
  | .countDistinct tf _ _ _ =>
    if field = tf then .ok metric
    else
      .error ⟨"Metric field validation differs between source and target orgs.",
        "MetricValidationMismatch"⟩
  | _ =>
    .error ⟨"Metric field validation differs between source and target orgs.",
      "MetricValidationMismatch"⟩

/-- `validateRatio` from commands/compare/data.ts (numerator and denominator
must agree on field and function). -/
def validateRatioPair (metric : ResolvedMetric)
    (numerator denominator : ResolvedFieldAggregateMetric)
    (targetMetric : ResolvedMetric) : Except SfError ResolvedMetric :=
  match targetMetric with
  | .ratioOf _ tn td _ =>
    if (numerator.field = tn.field ∧ numerator.fn = tn.fn) ∧
        (denominator.field = td.field ∧ denominator.fn = td.fn) then .ok metric
    else
      .error ⟨"Ratio metric validation differs between source and target orgs.",
        "MetricValidationMismatch"⟩
  | _ =>
    .error ⟨"Metric field validation differs between source and target orgs.",
      "MetricValidationMismatch"⟩

/-- `validateConditional` from commands/compare/data.ts, `sumIf` branch. -/
def validateSumIfPair (metric : ResolvedMetric) (field condition : String)
    (targetMetric : ResolvedMetric) : Except SfError ResolvedMetric :=
  match targetMetric with
  | .sumIf tf _ tc _ _ =>
    if field = tf ∧ condition = tc then .ok metric
    else
      .error ⟨"Conditional metric validation differs between source and target orgs.",
        "MetricValidationMismatch"⟩
  | _ =>
    .error ⟨"Conditional metric validation differs between source and target orgs.",
      "MetricValidationMismatch"⟩

/-- `validateConditional` from commands/compare/data.ts, `countIf` branch. -/
def validateCountIfPair (metric : ResolvedMetric) (condition : String)
    (targetMetric : ResolvedMetric) : Except SfError ResolvedMetric :=
  match targetMetric with
  | .countIf tc _ =>
    if condition = tc then .ok metric
    else
      .error ⟨"Conditional metric validation differs between source and target orgs.",
        "MetricValidationMismatch"⟩
  | _ =>
    .error ⟨"Conditional metric validation differs between source and target orgs.",
      "MetricValidationMismatch"⟩

/-- `validateMetricPair` from commands/compare/data.ts: a kind check followed
by the kind-specific structural comparison. -/
def validateMetricPair (metric targetMetric : ResolvedMetric) : Except SfError ResolvedMetric :=
  if metric.kindOf ≠ targetMetric.kindOf then
    .error ⟨"Metric kinds differ between org validations.", "MetricValidationMismatch"⟩
  else
    match metric with
    | .count vt => .ok (.count vt)
    | .fieldAggregate m => validateFieldAggregate m targetMetric
    | .countDistinct f ft l vt => validateCountDistinct (.countDistinct f ft l vt) f targetMetric
    | .ratioOf l n d vt => validateRatioPair (.ratioOf l n d vt) n d targetMetric
    | .countIf c vt => validateCountIfPair (.countIf c vt) c targetMetric
    | .sumIf f ft c l vt => validateSumIfPair (.sumIf f ft c l vt) f c targetMetric

/-- `reconcileMetrics` from commands/compare/data.ts: equal lengths, then a
fail-fast pairwise structural check returning the source metrics. -/
def reconcileMetrics (source target : List ResolvedMetric) :
    Except SfError (List ResolvedMetric) :=
  if source.length ≠ target.length then
    .error ⟨"Metric validation returned inconsistent results between source and target orgs.",
      "MetricValidationMismatch"⟩
  else
    (source.zip target).mapM (fun p => validateMetricPair p.1 p.2)

/-- Success test on an `Except` result (reconciliation "succeeds"). -/
def isOkE {ε α : Type} : Except ε α → Bool
  | .ok _ => true
  | .error _ => false

/-- The resolved `SUM(Amount)` aggregate used by the concrete scenarios. -/
def amountRFA : ResolvedFieldAggregateMetric :=
  { fn := .sum
    field := "Amount"
    fieldType := "currency"
    label := "Amount"
    valueType := .number }

/-- The resolved `sum:Amount` metric used by the concrete scenarios. -/
def sumAmountMetric : ResolvedMetric := .fieldAggregate amountRFA

/-- A schema with an aggregatable, non-numeric (reference-typed) field, as in
the repository's own quickstart example `count-distinct:OwnerId`. -/
def caseDescribeOwnerId : SimpleDescribeSObjectResult :=
  { name := "Case"
    fields := [{ name := "OwnerId", label := none, type := "reference", aggregatable := true }] }

/-- Value of a least-significant-first decimal digit list. -/
def digitsVal : List Nat → Nat
  | [] => 0
  | d :: rest => d + 10 * digitsVal rest

/-- An abstract signature for the shared-expression cache keys: `COUNT()`,
one per aggregate-function/field pair, or one per count-distinct field. -/
inductive ExprSig where
  | countSig
  | faSig (fn : SimpleAggregateFunction) (field : String)
  | cdSig (field : String)
  deriving DecidableEq, Repr

/-- The cache key produced for a signature (matching the source's
`'COUNT()'`, `buildAggregateKey` on field aggregates, and
`buildAggregateKey` on count-distinct metrics). -/
def sigKey : ExprSig → String
  | .countSig => "COUNT()"
  | .faSig fn f => fnName fn ++ "(" ++ f ++ ")"
  | .cdSig f => "COUNT_DISTINCT(" ++ f ++ ")"

/-- The SOQL text produced for a signature. -/
def sigSoql : ExprSig → String
  | .countSig => "COUNT(Id)"
  | .faSig fn f => fnUpper fn ++ "(" ++ f ++ ")"
  | .cdSig f => "COUNT_DISTINCT(" ++ f ++ ")"

/-- The loop invariant of `build()`: every emitted alias lives in the alias
namespace set, the aliases of expressions and conditional plans are pairwise
distinct, and the expression cache is exactly the expression list keyed by
deduplication signatures without repetition. -/
structure BuildInv (st : BuilderState) : Prop where
  exprInSet : ∀ e ∈ st.expressions, e.aliasName ∈ st.aliasSet
  condInSet : ∀ c ∈ st.conditionals, c.aliasName ∈ st.aliasSet
  aliasNodup : (st.expressions.map (fun e => e.aliasName) ++
    st.conditionals.map (fun c => c.aliasName)).Nodup
  cacheVals : st.cache.map Prod.snd = st.expressions
  cacheKeysNodup : (st.cache.map Prod.fst).Nodup
  cacheSigs : ∀ kv ∈ st.cache, ∃ sig : ExprSig, kv.1 = sigKey sig ∧ kv.2.soql = sigSoql sig

/-- How the compiler derives the stored metric of a definition from the input
metric: conditional metrics get their condition normalized, all others are
stored unchanged. -/
def condNormalize : ResolvedMetric → ResolvedMetric
  | .countIf c vt => .countIf (normalizeCondition c) vt
  | .sumIf f ft c l vt => .sumIf f ft (normalizeCondition c) l vt
  | m => m

/-- Projects the plan out of a successful `build` result (the fallback is
never reached in the witnesses below). -/
def planOrEmpty (r : Except String AggregatePlan) : AggregatePlan :=
  match r with
  | .ok p => p
  | .error _ =>
    { objectName := "", whereClause := none, aggregateQuery := none, expressions := [],
      metrics := [], conditionalMetrics := [], sampleFields := [] }

/-- The plan compiled from two identical `sum:Amount` metrics. -/
def c4planV : AggregatePlan :=
  planOrEmpty (build "Opportunity" [sumAmountMetric, sumAmountMetric] none)

/-- The plan compiled from `[count, sum:Amount]` for the C5 witness. -/
def c5planV : AggregatePlan :=
  planOrEmpty (build "Opportunity" [.count .number, sumAmountMetric] none)

/-- The plan compiled from `[count, sum:Amount]` for the C10 witness. -/
def c10planV : AggregatePlan :=
  planOrEmpty (build "Opportunity" [.count .number, sumAmountMetric] none)

/-- C1: the claim says validating a count-distinct metric over an existing,
aggregatable field succeeds regardless of the field's declared type.  The
code instead routes count-distinct through `ensureAggregatableField` with a
synthetic `{ fn: 'sum' }`, inheriting SUM's numeric-type gate: on the
aggregatable reference field `OwnerId` it fails with `UnsupportedFieldType`
(and an error message that names a SUM metric the user never asked for). -/
theorem c1_count_distinct_numeric_gate :
    resolveMetric (.countDistinct "OwnerId") caseDescribeOwnerId "source org" =
      .error ⟨"Field \"OwnerId\" in source org must be numeric for SUM metric.",
        "UnsupportedFieldType"⟩ := rfl

/-- C2: for resolved metrics `[count, sum:Amount]` on `Opportunity` with no
base filter, `build()` emits exactly the expected shared aggregate query, and
assembling the given source/target aggregate records yields rows with
differences `2` and `1500` (target minus source). -/
theorem c2_shared_query_and_differences :
    (build "Opportunity" [.count .number, sumAmountMetric] none).map
      (fun p => (p.aggregateQuery,
        (assembleRows p [("count__all", .num 10), ("sum__amount", .num 5000)]
          [("count__all", .num 12), ("sum__amount", .num 6500)]).map
          (fun r => r.difference))) =
    .ok (some "SELECT COUNT(Id) count__all, SUM(Amount) sum__amount FROM Opportunity",
      [some 2, some 1500]) := by
  have h : (build "Opportunity" [.count .number, sumAmountMetric] none).map
      (fun p => (p.aggregateQuery,
        (assembleRows p [("count__all", .num 10), ("sum__amount", .num 5000)]
          [("count__all", .num 12), ("sum__amount", .num 6500)]).map
          (fun r => r.difference))) =
      .ok (some "SELECT COUNT(Id) count__all, SUM(Amount) sum__amount FROM Opportunity",
        [some ((12 : ℚ) - 10), some ((6500 : ℚ) - 5000)]) := rfl
  rw [h]
  norm_num

/-- C3: a resolved `sum-if:Amount:StageName = 'Closed Won'` metric compiled
with base filter `FiscalYear = 2024` produces a standalone conditional plan
(no shared query, no shared expressions) whose query combines the base
filter and the normalized condition with AND, each parenthesized. -/
theorem c3_sum_if_standalone_query :
    (build "Opportunity"
      [.sumIf "Amount" "currency" "StageName = 'Closed Won'" "Amount" .number]
      (some "FiscalYear = 2024")).map
      (fun p => (p.conditionalMetrics.map (fun c => c.aggregateQuery),
        p.aggregateQuery, p.expressions)) =
    .ok (["SELECT SUM(Amount) sumIf__amount_stagename____closed_won_ FROM Opportunity WHERE (FiscalYear = 2024) AND (StageName = 'Closed Won')"],
      none, []) := rfl

/-- C5 (counterexample): compiling two identical `sum:Amount` metrics yields
two metric definitions that share the single deduplicated expression's alias,
so the metric-definition aliases of a plan are not pairwise distinct. -/
theorem c5_metric_definition_alias_collision :
    (build "Opportunity" [sumAmountMetric, sumAmountMetric] none).map
      (fun p => p.metrics.map MetricDefinition.aliasNameOf) =
      .ok ["sum__amount", "sum__amount"] ∧
    ¬ (["sum__amount", "sum__amount"] : List String).Nodup := by
  refine ⟨rfl, ?_⟩
  decide

/-- Helper for C7: `computeDifference` is `null` for date-typed metrics and
whenever either side is not a number. -/
theorem computeDifference_eq_none (m : ResolvedMetric) (s t : AggValue)
    (h : m.valueTypeOf = .date ∨ (∀ q : ℚ, s ≠ .num q) ∨ (∀ q : ℚ, t ≠ .num q)) :
    computeDifference m s t = none := by
  unfold computeDifference
  rcases h with h | h | h
  · rw [h]
    simp
  · cases s <;> cases t <;> simp_all
  · cases s <;> cases t <;> simp_all

/-- C7: in every assembled comparison row, the difference is `null` when the
metric's value type is `date`, and when either the row's source value or its
target value is `null` or not a number. -/
theorem c7_difference_null_safety (d : MetricDefinition)
    (src tgt : List (String × AggValue))
    (h : (buildMetricRow d src tgt).metric.valueTypeOf = .date ∨
      (∀ q : ℚ, (buildMetricRow d src tgt).sourceValue ≠ .num q) ∨
      (∀ q : ℚ, (buildMetricRow d src tgt).targetValue ≠ .num q)) :
    (buildMetricRow d src tgt).difference = none := by
  cases d with
  | direct m a => exact computeDifference_eq_none _ _ _ h
  | ratioOf m na da a => exact computeDifference_eq_none _ _ _ h

/-- Witness for C7 at a date-typed `min(CloseDate)` row. -/
theorem c7_witness :
    (buildMetricRow
      (.direct (.fieldAggregate { fn := .min
                                  field := "CloseDate"
                                  fieldType := "date"
                                  label := "CloseDate"
                                  valueType := .date }) "min__closedate")
      [("min__closedate", .str "2024-01-01")] [("min__closedate", .str "2024-12-06")]).difference
      = none :=
  c7_difference_null_safety _ _ _ (Or.inl rfl)

/-- C8: a ratio row's per-environment value is computed by
`computeRatioValue` over the resolved numerator and denominator aliases;
that value is `null` whenever the denominator is zero or either side is not
a number (division by zero cannot raise — the function is total), and is the
quotient otherwise. -/
theorem c8_ratio_zero_guard (m : ResolvedMetric) (na da a : String)
    (src tgt : List (String × AggValue)) (n d : AggValue) (p q : ℚ) :
    ((buildMetricRow (.ratioOf m na da a) src tgt).sourceValue =
        computeRatioValue (lookupAgg na src) (lookupAgg da src) ∧
      (buildMetricRow (.ratioOf m na da a) src tgt).targetValue =
        computeRatioValue (lookupAgg na tgt) (lookupAgg da tgt)) ∧
    ((d = .num 0 ∨ (∀ r : ℚ, n ≠ .num r) ∨ (∀ r : ℚ, d ≠ .num r)) →
      computeRatioValue n d = .nullV) ∧
    (q ≠ 0 → computeRatioValue (.num p) (.num q) = .num (p / q)) := by
  refine ⟨⟨rfl, rfl⟩, ?_, ?_⟩
  · intro h
    unfold computeRatioValue
    rcases h with h | h | h
    · subst h
      cases n <;> simp
    · cases n <;> cases d <;> simp_all
    · cases n <;> cases d <;> simp_all
  · intro hq
    simp [computeRatioValue, hq]

/-- Witness for C8: zero denominator yields `null`; `200 / 100` yields `2`. -/
theorem c8_witness :
    computeRatioValue (.num 200) (.num 0) = .nullV ∧
    computeRatioValue (.num 200) (.num 100) = .num 2 := by
  constructor
  · exact (c8_ratio_zero_guard (.count .number) "" "" "" [] [] (.num 200) (.num 0) 0 1).2.1
      (Or.inl rfl)
  · have h := (c8_ratio_zero_guard (.count .number) "" "" "" [] [] (.num 200) (.num 0)
      200 100).2.2 (by norm_num)
    rw [h]
    norm_num

/-- C9: parsing no tokens, an empty token list, or any token list whose
fragments are all empty after comma-splitting and trimming yields exactly the
single `Count` metric. -/
theorem c9_default_count_metric :
    parseMetricTokens none = .ok [.count] ∧
    parseMetricTokens (some []) = .ok [.count] ∧
    ∀ tokens : List String,
      (∀ fragment ∈ (tokens.map (fun t => splitOnChar ',' t)).flatten,
        trimStr fragment = "") →
      parseMetricTokens (some tokens) = .ok [.count] := by
  refine ⟨rfl, rfl, fun tokens h => ?_⟩
  have hflat : flattenTokens (some tokens) = [] := by
    unfold flattenTokens
    rw [List.filter_eq_nil_iff]
    intro a ha
    rw [List.mem_map] at ha
    obtain ⟨frag, hfrag, rfl⟩ := ha
    rw [h frag hfrag]
    decide
  simp [parseMetricTokens, hflat]

/-- Witness for C9 on a token list of empty and whitespace-only fragments. -/
theorem c9_witness : parseMetricTokens (some [" , ", ""]) = .ok [.count] :=
  c9_default_count_metric.2.2 [" , ", ""] (by decide)

/-- Helper for C6: one structural pair check succeeds in one direction
exactly when it succeeds in the other. -/
theorem validateMetricPair_symm (m t : ResolvedMetric) :
    isOkE (validateMetricPair m t) = isOkE (validateMetricPair t m) := by
  cases m <;> cases t <;>
    simp [validateMetricPair, ResolvedMetric.kindOf, validateFieldAggregate,
      validateCountDistinct, validateRatioPair, validateSumIfPair, validateCountIfPair,
      isOkE, eq_comm] <;>
    split_ifs <;> simp_all [isOkE, eq_comm]

/-- Helper for C6: a fail-fast monadic map succeeds exactly when every
element check succeeds. -/
theorem isOkE_mapM {α β : Type} (f : α → Except SfError β) :
    ∀ l : List α, isOkE (l.mapM f) = l.all (fun x => isOkE (f x)) := by
  intro l
  induction l with
  | nil => rfl
  | cons x xs ih =>
    rw [List.mapM_cons, List.all_cons, ← ih]
    cases hfx : f x with
    | error e => rfl
    | ok b =>
      cases hxs : xs.mapM f with
      | error e => rfl
      | ok bs => rfl

/-- C6: `reconcile(A, B)` succeeds exactly when `reconcile(B, A)` succeeds —
the length check and every kind-specific structural comparison are
symmetric. -/
theorem c6_reconcile_symmetric (A B : List ResolvedMetric) :
    isOkE (reconcileMetrics A B) = isOkE (reconcileMetrics B A) := by
  unfold reconcileMetrics
  by_cases h : A.length = B.length
  · rw [if_neg (by omega), if_neg (by omega)]
    rw [isOkE_mapM, isOkE_mapM]
    have hzip : B.zip A = (A.zip B).map Prod.swap := (List.zip_swap A B).symm
    rw [hzip, List.all_map]
    congr 1
    funext x
    exact validateMetricPair_symm x.1 x.2
  · rw [if_pos (by omega), if_pos (by omega)]

/-- `decDigitsGo` computes a faithful decimal representation whenever the
fuel is at least the number. -/
theorem decDigitsGo_val : ∀ (fuel n : Nat), n ≤ fuel → digitsVal (decDigitsGo fuel n) = n := by
  intro fuel
  induction fuel with
  | zero =>
    intro n h
    have : n = 0 := Nat.le_zero.mp h
    subst this
    rfl
  | succ f ih =>
    intro n h
    unfold decDigitsGo
    by_cases hn : n = 0
    · simp [hn, digitsVal]
    · rw [if_neg hn]
      have hdiv : n / 10 ≤ f := by
        have h1 : n / 10 < n := Nat.div_lt_self (Nat.pos_of_ne_zero hn) (by norm_num)
        omega
      simp only [digitsVal, ih (n / 10) hdiv]
      omega

/-- Round trip for `decDigits`. -/
theorem decDigits_val (n : Nat) : digitsVal (decDigits n) = n :=
  decDigitsGo_val n n le_rfl

/-- Every digit produced by `decDigitsGo` is a decimal digit. -/
theorem decDigitsGo_lt_ten : ∀ (fuel n d : Nat), d ∈ decDigitsGo fuel n → d < 10 := by
  intro fuel
  induction fuel with
  | zero => intro n d h; simp [decDigitsGo] at h
  | succ f ih =>
    intro n d h
    unfold decDigitsGo at h
    by_cases hn : n = 0
    · simp [hn] at h
    · rw [if_neg hn] at h
      rcases List.mem_cons.mp h with h | h
      · subst h; exact Nat.mod_lt n (by norm_num)
      · exact ih (n / 10) d h

/-- `digitToChar` is injective on decimal digits. -/
theorem digitToChar_inj : ∀ d1, d1 < 10 → ∀ d2, d2 < 10 →
    digitToChar d1 = digitToChar d2 → d1 = d2 := by decide

/-- Mapping `digitToChar` over lists of decimal digits is injective. -/
theorem map_digitToChar_inj : ∀ (l1 l2 : List Nat), (∀ d ∈ l1, d < 10) →
    (∀ d ∈ l2, d < 10) → l1.map digitToChar = l2.map digitToChar → l1 = l2 := by
  intro l1
  induction l1 with
  | nil =>
    intro l2 _ _ h
    cases l2 with
    | nil => rfl
    | cons b bs => simp at h
  | cons a as ih =>
    intro l2 h1 h2 h
    cases l2 with
    | nil => simp at h
    | cons b bs =>
      simp only [List.map_cons, List.cons.injEq] at h
      have ha : a = b := digitToChar_inj a (h1 a (List.mem_cons_self a as)) b
        (h2 b (List.mem_cons_self b bs)) h.1
      have hb : as = bs := ih bs (fun d hd => h1 d (List.mem_cons_of_mem _ hd))
        (fun d hd => h2 d (List.mem_cons_of_mem _ hd)) h.2
      rw [ha, hb]

/-- `decimalString` is injective: distinct counters give distinct strings. -/
theorem decimalString_inj : ∀ m n : Nat, decimalString m = decimalString n → m = n := by
  have key : ∀ k : Nat, k ≠ 0 →
      ((decDigits k).reverse.map digitToChar = ['0'] → False) := by
    intro k hk h
    have hb1 : ∀ d ∈ (decDigits k).reverse, d < 10 := by
      intro d hd
      exact decDigitsGo_lt_ten k k d (List.mem_reverse.mp hd)
    have h0 : ([0] : List Nat).map digitToChar = ['0'] := rfl
    have := map_digitToChar_inj (decDigits k).reverse [0] hb1 (by norm_num) (h.trans h0.symm)
    have hrev : decDigits k = [0] := by
      have := congrArg List.reverse this
      simpa using this
    have := decDigits_val k
    rw [hrev] at this
    simp [digitsVal] at this
    omega
  intro m n h
  by_cases hm : m = 0 <;> by_cases hn : n = 0
  · omega
  · exfalso
    unfold decimalString at h
    rw [if_pos hm, if_neg hn] at h
    have := congrArg String.data h
    exact key n hn (by simpa using this.symm)
  · exfalso
    unfold decimalString at h
    rw [if_neg hm, if_pos hn] at h
    have := congrArg String.data h
    exact key m hm (by simpa using this)
  · unfold decimalString at h
    rw [if_neg hm, if_neg hn] at h
    have hdata := congrArg String.data h
    simp only [] at hdata
    have hmap : (decDigits m).reverse.map digitToChar = (decDigits n).reverse.map digitToChar :=
      hdata
    have hbm : ∀ d ∈ (decDigits m).reverse, d < 10 := fun d hd =>
      decDigitsGo_lt_ten m m d (List.mem_reverse.mp hd)
    have hbn : ∀ d ∈ (decDigits n).reverse, d < 10 := fun d hd =>
      decDigitsGo_lt_ten n n d (List.mem_reverse.mp hd)
    have hrev := map_digitToChar_inj _ _ hbm hbn hmap
    have hdig : decDigits m = decDigits n := by
      have := congrArg List.reverse hrev
      simpa using this
    have h1 := decDigits_val m
    rw [hdig, decDigits_val n] at h1
    omega

/-- The candidates tried by `uniqueAlias` are pairwise distinct. -/
theorem aliasCandidate_inj (base : String) : Function.Injective (aliasCandidate base) := by
  intro k1 k2 h
  match k1, k2 with
  | 0, 0 => rfl
  | 0, j + 1 =>
    exfalso
    have h2 := congrArg String.length h
    simp only [aliasCandidate] at h2
    rw [String.length_append, String.length_append] at h2
    have h3 : ("_" : String).length = 1 := rfl
    omega
  | i + 1, 0 =>
    exfalso
    have h2 := congrArg String.length h
    simp only [aliasCandidate] at h2
    rw [String.length_append, String.length_append] at h2
    have h3 : ("_" : String).length = 1 := rfl
    omega
  | i + 1, j + 1 =>
    simp only [aliasCandidate] at h
    have hdata := congrArg String.data h
    simp only [String.data_append] at hdata
    have : (decimalString (i + 1)).data = (decimalString (j + 1)).data :=
      List.append_cancel_left hdata
    have hstr : decimalString (i + 1) = decimalString (j + 1) := by
      cases hd : decimalString (i + 1)
      cases hd2 : decimalString (j + 1)
      rw [hd, hd2] at this
      simp only [] at this
      exact congrArg String.mk this
    have := decimalString_inj (i + 1) (j + 1) hstr
    omega

/-- If `uniqueAliasGo` lands in the existing set, every candidate of the fuel
window was already taken. -/
theorem uniqueAliasGo_spec (base : String) (existing : List String) :
    ∀ (fuel attempt : Nat),
      uniqueAliasGo base existing fuel attempt ∉ existing ∨
      (∀ k < fuel, aliasCandidate base (attempt + k) ∈ existing) := by
  intro fuel
  induction fuel with
  | zero =>
    intro attempt
    right
    intro k hk
    omega
  | succ f ih =>
    intro attempt
    unfold uniqueAliasGo
    by_cases hmem : aliasCandidate base attempt ∈ existing
    · rw [if_pos hmem]
      rcases ih (attempt + 1) with h | h
      · left; exact h
      · right
        intro k hk
        match k with
        | 0 => simpa using hmem
        | j + 1 =>
          have := h j (by omega)
          have harith : attempt + 1 + j = attempt + (j + 1) := by omega
          rwa [harith] at this
    · rw [if_neg hmem]
      left
      exact hmem

/-- The alias returned by `uniqueAlias` is fresh: the source's `while` loop
always terminates within `existing.length + 1` iterations because the
candidate stream never repeats. -/
theorem uniqueAlias_fresh (base : String) (existing : List String) :
    uniqueAlias base existing ∉ existing := by
  unfold uniqueAlias
  rcases uniqueAliasGo_spec base existing (existing.length + 1) 0 with h | h
  · exact h
  · exfalso
    set L := (List.range (existing.length + 1)).map (aliasCandidate base) with hL
    have hnd : L.Nodup := (List.nodup_range (existing.length + 1)).map (aliasCandidate_inj base)
    have hsub : ∀ x ∈ L, x ∈ existing := by
      intro x hx
      rw [hL, List.mem_map] at hx
      obtain ⟨k, hk, rfl⟩ := hx
      rw [List.mem_range] at hk
      have := h k hk
      simpa using this
    have hcard : L.toFinset.card = L.length := List.toFinset_card_of_nodup hnd
    have hss : L.toFinset ⊆ existing.toFinset := by
      intro x hx
      exact List.mem_toFinset.mpr (hsub x (List.mem_toFinset.mp hx))
    have h1 : L.toFinset.card ≤ existing.toFinset.card := Finset.card_le_card hss
    have h2 : existing.toFinset.card ≤ existing.length := existing.toFinset_card_le
    have h3 : L.length = existing.length + 1 := by
      rw [hL, List.length_map, List.length_range]
    omega

/-- Splitting a character list at the first parenthesis is unambiguous when
neither prefix contains one. -/
theorem append_paren_split : ∀ (a1 a2 b1 b2 : List Char), '(' ∉ a1 → '(' ∉ a2 →
    a1 ++ '(' :: b1 = a2 ++ '(' :: b2 → a1 = a2 ∧ b1 = b2 := by
  intro a1
  induction a1 with
  | nil =>
    intro a2 b1 b2 _ h2 h
    cases a2 with
    | nil =>
      simp only [List.nil_append, List.cons.injEq] at h
      exact ⟨rfl, h.2⟩
    | cons c cs =>
      exfalso
      simp only [List.nil_append, List.cons_append, List.cons.injEq] at h
      exact h2 (h.1 ▸ List.mem_cons_self c cs)
  | cons c cs ih =>
    intro a2 b1 b2 h1 h2 h
    cases a2 with
    | nil =>
      exfalso
      simp only [List.cons_append, List.nil_append, List.cons.injEq] at h
      exact h1 (h.1.symm ▸ List.mem_cons_self c cs)
    | cons d ds =>
      simp only [List.cons_append, List.cons.injEq] at h
      have htail := ih ds b1 b2 (fun hm => h1 (List.mem_cons_of_mem c hm))
        (fun hm => h2 (List.mem_cons_of_mem d hm)) h.2
      exact ⟨by rw [h.1, htail.1], htail.2⟩

/-- String-level version: `p ++ "(" ++ f ++ ")"` determines `p` and `f` when
`p` contains no parenthesis. -/
theorem paren_block_inj (p1 p2 f1 f2 : String) (h1 : '(' ∉ p1.data) (h2 : '(' ∉ p2.data)
    (h : p1 ++ "(" ++ f1 ++ ")" = p2 ++ "(" ++ f2 ++ ")") : p1 = p2 ∧ f1 = f2 := by
  have hd := congrArg String.data h
  have e1 : ∀ (p f : String), (p ++ "(" ++ f ++ ")").data = p.data ++ '(' :: (f.data ++ [')']) := by
    intro p f
    simp [String.data_append, List.append_assoc]
  rw [e1, e1] at hd
  have hsplit := append_paren_split p1.data p2.data _ _ h1 h2 hd
  refine ⟨?_, ?_⟩
  · cases p1
    cases p2
    exact congrArg String.mk hsplit.1
  · have := List.append_cancel_right hsplit.2
    cases f1
    cases f2
    exact congrArg String.mk this

/-- No aggregate function name contains a parenthesis. -/
theorem fnName_no_paren (fn : SimpleAggregateFunction) : '(' ∉ (fnName fn).data := by
  cases fn <;> decide

/-- No uppercase aggregate function name contains a parenthesis. -/
theorem fnUpper_no_paren (fn : SimpleAggregateFunction) : '(' ∉ (fnUpper fn).data := by
  cases fn <;> decide

/-- The lowercase function names are pairwise distinct. -/
theorem fnName_inj (a b : SimpleAggregateFunction) (h : fnName a = fnName b) : a = b := by
  cases a <;> cases b <;> first
    | rfl
    | exact absurd h (by decide)

/-- The uppercase function names are pairwise distinct. -/
theorem fnUpper_inj (a b : SimpleAggregateFunction) (h : fnUpper a = fnUpper b) : a = b := by
  cases a <;> cases b <;> first
    | rfl
    | exact absurd h (by decide)

/-- Cache keys identify signatures uniquely. -/
theorem sigKey_inj (s1 s2 : ExprSig) (h : sigKey s1 = sigKey s2) : s1 = s2 := by
  have hcount : ("COUNT()" : String) = "COUNT" ++ "(" ++ "" ++ ")" := rfl
  cases s1 <;> cases s2 <;> simp only [sigKey] at h
  · rfl
  case countSig.faSig fn f =>
    rw [hcount] at h
    have := paren_block_inj "COUNT" (fnName fn) "" f (by decide) (fnName_no_paren fn) h
    exact absurd this.1.symm (by cases fn <;> decide)
  case countSig.cdSig f =>
    rw [hcount, show ("COUNT_DISTINCT(" ++ f ++ ")" : String) =
      "COUNT_DISTINCT" ++ "(" ++ f ++ ")" from rfl] at h
    have := paren_block_inj "COUNT" "COUNT_DISTINCT" "" f (by decide) (by decide) h
    exact absurd this.1 (by decide)
  case faSig.countSig fn f =>
    rw [hcount] at h
    have := paren_block_inj (fnName fn) "COUNT" f "" (fnName_no_paren fn) (by decide) h
    exact absurd this.1 (by cases fn <;> decide)
  case faSig.faSig fn1 f1 fn2 f2 =>
    have := paren_block_inj (fnName fn1) (fnName fn2) f1 f2 (fnName_no_paren fn1)
      (fnName_no_paren fn2) h
    rw [fnName_inj fn1 fn2 this.1, this.2]
  case faSig.cdSig fn f1 f2 =>
    rw [show ("COUNT_DISTINCT(" ++ f2 ++ ")" : String) =
      "COUNT_DISTINCT" ++ "(" ++ f2 ++ ")" from rfl] at h
    have := paren_block_inj (fnName fn) "COUNT_DISTINCT" f1 f2 (fnName_no_paren fn)
      (by decide) h
    exact absurd this.1 (by cases fn <;> decide)
  case cdSig.countSig f =>
    rw [hcount, show ("COUNT_DISTINCT(" ++ f ++ ")" : String) =
      "COUNT_DISTINCT" ++ "(" ++ f ++ ")" from rfl] at h
    have := paren_block_inj "COUNT_DISTINCT" "COUNT" f "" (by decide) (by decide) h
    exact absurd this.1 (by decide)
  case cdSig.faSig f1 fn f2 =>
    rw [show ("COUNT_DISTINCT(" ++ f1 ++ ")" : String) =
      "COUNT_DISTINCT" ++ "(" ++ f1 ++ ")" from rfl] at h
    have := paren_block_inj "COUNT_DISTINCT" (fnName fn) f1 f2 (by decide)
      (fnName_no_paren fn) h
    exact absurd this.1.symm (by cases fn <;> decide)
  case cdSig.cdSig f1 f2 =>
    rw [show ("COUNT_DISTINCT(" ++ f1 ++ ")" : String) =
      "COUNT_DISTINCT" ++ "(" ++ f1 ++ ")" from rfl,
      show ("COUNT_DISTINCT(" ++ f2 ++ ")" : String) =
      "COUNT_DISTINCT" ++ "(" ++ f2 ++ ")" from rfl] at h
    have := paren_block_inj "COUNT_DISTINCT" "COUNT_DISTINCT" f1 f2 (by decide) (by decide) h
    rw [this.2]

/-- SOQL texts identify signatures uniquely. -/
theorem sigSoql_inj (s1 s2 : ExprSig) (h : sigSoql s1 = sigSoql s2) : s1 = s2 := by
  have hcount : ("COUNT(Id)" : String) = "COUNT" ++ "(" ++ "Id" ++ ")" := rfl
  cases s1 <;> cases s2 <;> simp only [sigSoql] at h
  · rfl
  case countSig.faSig fn f =>
    rw [hcount] at h
    have := paren_block_inj "COUNT" (fnUpper fn) "Id" f (by decide) (fnUpper_no_paren fn) h
    exact absurd this.1.symm (by cases fn <;> decide)
  case countSig.cdSig f =>
    rw [hcount, show ("COUNT_DISTINCT(" ++ f ++ ")" : String) =
      "COUNT_DISTINCT" ++ "(" ++ f ++ ")" from rfl] at h
    have := paren_block_inj "COUNT" "COUNT_DISTINCT" "Id" f (by decide) (by decide) h
    exact absurd this.1 (by decide)
  case faSig.countSig fn f =>
    rw [hcount] at h
    have := paren_block_inj (fnUpper fn) "COUNT" f "Id" (fnUpper_no_paren fn) (by decide) h
    exact absurd this.1 (by cases fn <;> decide)
  case faSig.faSig fn1 f1 fn2 f2 =>
    have := paren_block_inj (fnUpper fn1) (fnUpper fn2) f1 f2 (fnUpper_no_paren fn1)
      (fnUpper_no_paren fn2) h
    rw [fnUpper_inj fn1 fn2 this.1, this.2]
  case faSig.cdSig fn f1 f2 =>
    rw [show ("COUNT_DISTINCT(" ++ f2 ++ ")" : String) =
      "COUNT_DISTINCT" ++ "(" ++ f2 ++ ")" from rfl] at h
    have := paren_block_inj (fnUpper fn) "COUNT_DISTINCT" f1 f2 (fnUpper_no_paren fn)
      (by decide) h
    exact absurd this.1 (by cases fn <;> decide)
  case cdSig.countSig f =>
    rw [hcount, show ("COUNT_DISTINCT(" ++ f ++ ")" : String) =
      "COUNT_DISTINCT" ++ "(" ++ f ++ ")" from rfl] at h
    have := paren_block_inj "COUNT_DISTINCT" "COUNT" f "Id" (by decide) (by decide) h
    exact absurd this.1 (by decide)
  case cdSig.faSig f1 fn f2 =>
    rw [show ("COUNT_DISTINCT(" ++ f1 ++ ")" : String) =
      "COUNT_DISTINCT" ++ "(" ++ f1 ++ ")" from rfl] at h
    have := paren_block_inj "COUNT_DISTINCT" (fnUpper fn) f1 f2 (by decide)
      (fnUpper_no_paren fn) h
    exact absurd this.1.symm (by cases fn <;> decide)
  case cdSig.cdSig f1 f2 =>
    rw [show ("COUNT_DISTINCT(" ++ f1 ++ ")" : String) =
      "COUNT_DISTINCT" ++ "(" ++ f1 ++ ")" from rfl,
      show ("COUNT_DISTINCT(" ++ f2 ++ ")" : String) =
      "COUNT_DISTINCT" ++ "(" ++ f2 ++ ")" from rfl] at h
    have := paren_block_inj "COUNT_DISTINCT" "COUNT_DISTINCT" f1 f2 (by decide) (by decide) h
    rw [this.2]

/-- A successful cache lookup returns an entry of the cache. -/
theorem lookupKey_mem {k : String} {e : AggregateExpression} :
    ∀ {l : List (String × AggregateExpression)}, lookupKey k l = some e → (k, e) ∈ l := by
  intro l
  induction l with
  | nil => intro h; simp [lookupKey] at h
  | cons kv rest ih =>
    obtain ⟨k1, v⟩ := kv
    intro h
    simp only [lookupKey] at h
    by_cases hk : k1 = k
    · rw [if_pos hk] at h
      cases h
      subst hk
      exact List.mem_cons_self _ _
    · rw [if_neg hk] at h
      exact List.mem_cons_of_mem _ (ih h)

/-- A hit in a cache prefix survives appending more entries. -/
theorem lookupKey_append_found {k : String} {e : AggregateExpression} :
    ∀ {l1 l2 : List (String × AggregateExpression)}, lookupKey k l1 = some e →
      lookupKey k (l1 ++ l2) = some e := by
  intro l1 l2
  induction l1 with
  | nil => intro h; simp [lookupKey] at h
  | cons kv rest ih =>
    obtain ⟨k1, v⟩ := kv
    intro h
    simp only [List.cons_append, lookupKey] at h ⊢
    by_cases hk : k1 = k
    · rwa [if_pos hk] at h ⊢
    · rw [if_neg hk] at h ⊢
      exact ih h

/-- A miss in a cache prefix defers to the appended entries. -/
theorem lookupKey_append_none {k : String} :
    ∀ {l1 l2 : List (String × AggregateExpression)}, lookupKey k l1 = none →
      lookupKey k (l1 ++ l2) = lookupKey k l2 := by
  intro l1 l2
  induction l1 with
  | nil => intro _; rfl
  | cons kv rest ih =>
    obtain ⟨k1, v⟩ := kv
    intro h
    simp only [List.cons_append, lookupKey] at h ⊢
    by_cases hk : k1 = k
    · rw [if_pos hk] at h; cases h
    · rw [if_neg hk] at h ⊢
      exact ih h

/-- A miss means the key labels no entry. -/
theorem lookupKey_none_not_mem {k : String} :
    ∀ {l : List (String × AggregateExpression)}, lookupKey k l = none →
      k ∉ l.map Prod.fst := by
  intro l
  induction l with
  | nil => intro _; simp
  | cons kv rest ih =>
    obtain ⟨k1, v⟩ := kv
    intro h
    simp only [lookupKey] at h
    by_cases hk : k1 = k
    · rw [if_pos hk] at h; cases h
    · rw [if_neg hk] at h
      simp only [List.map_cons, List.mem_cons]
      push_neg
      exact ⟨fun he => hk he.symm, ih h⟩

/-- With duplicate-free keys, entries are determined by their key. -/
theorem keys_nodup_unique {k : String} {a b : AggregateExpression} :
    ∀ {l : List (String × AggregateExpression)}, (l.map Prod.fst).Nodup →
      (k, a) ∈ l → (k, b) ∈ l → a = b := by
  intro l
  induction l with
  | nil => intro _ ha; simp at ha
  | cons kv rest ih =>
    obtain ⟨k1, v⟩ := kv
    intro hnd ha hb
    simp only [List.map_cons, List.nodup_cons] at hnd
    simp only [List.mem_cons, Prod.mk.injEq] at ha hb
    rcases ha with ⟨hk1, hav⟩ | ha
    · rcases hb with ⟨_, hbv⟩ | hb
      · rw [hav, hbv]
      · exfalso
        apply hnd.1
        subst hk1
        exact List.mem_map_of_mem Prod.fst hb
    · rcases hb with ⟨hk1, hbv⟩ | hb
      · exfalso
        apply hnd.1
        subst hk1
        exact List.mem_map_of_mem Prod.fst ha
      · exact ih hnd.2 ha hb

/-- Membership facts for `addToSet`. -/
theorem addToSet_mem (x : String) (s : List String) : x ∈ addToSet x s := by
  unfold addToSet
  by_cases h : x ∈ s
  · rwa [if_pos h]
  · rw [if_neg h]
    simp

/-- `addToSet` only grows the set. -/
theorem addToSet_subset (x : String) (s : List String) : s ⊆ addToSet x s := by
  unfold addToSet
  by_cases h : x ∈ s
  · rw [if_pos h]
    exact fun y hy => hy
  · rw [if_neg h]
    exact List.subset_append_left s [x]

/-- The appended alias is the only possible new member of `addToSet`. -/
theorem mem_addToSet {y x : String} {s : List String} (h : y ∈ addToSet x s) :
    y ∈ s ∨ y = x := by
  unfold addToSet at h
  by_cases hx : x ∈ s
  · rw [if_pos hx] at h
    exact Or.inl h
  · rw [if_neg hx] at h
    rcases List.mem_append.mp h with h | h
    · exact Or.inl h
    · simp only [List.mem_singleton] at h
      exact Or.inr h

/-- The initial builder state satisfies the invariant. -/
theorem buildInv_initial : BuildInv initialBuilderState := by
  constructor <;> simp [initialBuilderState]

/-- Effect of one `addExpression` call: the invariant is preserved, the cache
only grows, the alias namespace only grows, the returned alias is the alias
of the cache entry now stored under `key`, and nothing else changes. -/
theorem addExpression_spec (st : BuilderState) (key soql baseAlias : String)
    (vt : MetricValueType) (hInv : BuildInv st)
    (hsig : ∃ sig : ExprSig, key = sigKey sig ∧ soql = sigSoql sig) :
    BuildInv (addExpression st key soql baseAlias vt).2 ∧
    (∃ ext, (addExpression st key soql baseAlias vt).2.cache = st.cache ++ ext) ∧
    st.aliasSet ⊆ (addExpression st key soql baseAlias vt).2.aliasSet ∧
    (∃ e, lookupKey key (addExpression st key soql baseAlias vt).2.cache = some e ∧
      (addExpression st key soql baseAlias vt).1 = e.aliasName) ∧
    (addExpression st key soql baseAlias vt).2.defs = st.defs ∧
    (addExpression st key soql baseAlias vt).2.conditionals = st.conditionals ∧
    (addExpression st key soql baseAlias vt).2.metricAliasSet = st.metricAliasSet ∧
    (∃ ext2, (addExpression st key soql baseAlias vt).2.expressions =
      st.expressions ++ ext2) := by
  unfold addExpression
  cases hc : lookupKey key st.cache with
  | some cached =>
    refine ⟨hInv, ⟨[], (List.append_nil _).symm⟩, fun x hx => hx, ⟨cached, ?_, rfl⟩, rfl, rfl,
      rfl, ⟨[], (List.append_nil _).symm⟩⟩
    exact hc
  | none =>
    set a := uniqueAlias baseAlias st.aliasSet with ha
    have hfresh : a ∉ st.aliasSet := uniqueAlias_fresh baseAlias st.aliasSet
    have hexprfresh : ∀ e ∈ st.expressions, e.aliasName ≠ a :=
      fun e he heq => hfresh (heq ▸ hInv.exprInSet e he)
    have hcondfresh : ∀ c ∈ st.conditionals, c.aliasName ≠ a :=
      fun c hcm heq => hfresh (heq ▸ hInv.condInSet c hcm)
    refine ⟨?_, ⟨[(key, AggregateExpression.mk a soql vt)], rfl⟩, addToSet_subset a st.aliasSet,
      ⟨AggregateExpression.mk a soql vt, ?_, rfl⟩, rfl, rfl, rfl,
      ⟨[AggregateExpression.mk a soql vt], rfl⟩⟩
    · constructor
      · intro e he
        simp only [List.mem_append, List.mem_singleton] at he
        rcases he with he | he
        · exact addToSet_subset a st.aliasSet (hInv.exprInSet e he)
        · rw [he]
          exact addToSet_mem a st.aliasSet
      · intro c hcm
        exact addToSet_subset a st.aliasSet (hInv.condInSet c hcm)
      · have hperm : ((st.expressions ++ [AggregateExpression.mk a soql vt]).map
            (fun e => e.aliasName) ++
            st.conditionals.map (fun c => c.aliasName)).Perm
            ((st.expressions.map (fun e => e.aliasName) ++
              st.conditionals.map (fun c => c.aliasName)) ++ [a]) := by
          simp only [List.map_append, List.map_cons, List.map_nil, List.append_assoc]
          exact List.Perm.append_left _ (List.perm_append_comm)
        rw [List.Perm.nodup_iff hperm]
        rw [List.nodup_append]
        refine ⟨hInv.aliasNodup, List.nodup_singleton a, ?_⟩
        intro x hx
        simp only [List.mem_singleton]
        intro hxa
        subst hxa
        rcases List.mem_append.mp hx with hx | hx
        · obtain ⟨e, he, heq⟩ := List.mem_map.mp hx
          exact hexprfresh e he heq
        · obtain ⟨c, hcm, heq⟩ := List.mem_map.mp hx
          exact hcondfresh c hcm heq
      · simp [hInv.cacheVals]
      · rw [List.map_append]
        rw [List.nodup_append]
        refine ⟨hInv.cacheKeysNodup, by simp, ?_⟩
        intro x hx
        simp only [List.map_cons, List.map_nil, List.mem_singleton]
        intro hxk
        subst hxk
        exact lookupKey_none_not_mem hc hx
      · intro kv hkv
        rcases List.mem_append.mp hkv with hkv | hkv
        · exact hInv.cacheSigs kv hkv
        · simp only [List.mem_singleton] at hkv
          subst hkv
          obtain ⟨sig, hk, hs⟩ := hsig
          exact ⟨sig, hk, hs⟩
    · rw [lookupKey_append_none hc]
      simp [lookupKey]

/-- Inserting one fresh alias at the end of the conditional-alias block keeps
the combined alias list duplicate-free. -/
theorem aliasNodup_append_one {E C : List String} {a : String}
    (hnd : (E ++ C).Nodup) (ha : a ∉ E ++ C) : (E ++ (C ++ [a])).Nodup := by
  have : E ++ (C ++ [a]) = (E ++ C) ++ [a] := by rw [List.append_assoc]
  rw [this, List.nodup_append]
  refine ⟨hnd, List.nodup_singleton a, ?_⟩
  intro x hx
  simp only [List.mem_singleton]
  intro hxa
  subst hxa
  exact ha hx

/-- Effect of one loop iteration of `build()`: the invariant is preserved,
the cache only grows, exactly one metric definition is appended, the stored
metric is the (condition-normalized) input metric, and a field-aggregate
metric's definition carries the alias of the cache entry stored under its
deduplication key. -/
theorem buildStep_spec (objectName : String) (bw : Option String) (st : BuilderState)
    (metric : ResolvedMetric) (hInv : BuildInv st) :
    BuildInv (buildStep objectName bw st metric) ∧
    (∃ ext, (buildStep objectName bw st metric).cache = st.cache ++ ext) ∧
    (∃ d, (buildStep objectName bw st metric).defs = st.defs ++ [d] ∧
      d.metricOf = condNormalize metric ∧
      ∀ a : ResolvedFieldAggregateMetric, metric = .fieldAggregate a →
        ∃ e, lookupKey (buildAggregateKeyFA a) (buildStep objectName bw st metric).cache =
          some e ∧ d = .direct metric e.aliasName) := by
  cases metric with
  | count vt =>
    obtain ⟨hI, hcache, _, ⟨e, hlook, haeq⟩, hdefs, hconds, hmset, hexprs⟩ :=
      addExpression_spec st "COUNT()" "COUNT(Id)" "count__all" vt hInv ⟨.countSig, rfl, rfl⟩
    refine ⟨⟨hI.exprInSet, hI.condInSet, hI.aliasNodup, hI.cacheVals, hI.cacheKeysNodup,
      hI.cacheSigs⟩, hcache,
      ⟨.direct (.count vt) (addExpression st "COUNT()" "COUNT(Id)" "count__all" vt).1,
        ?_, rfl, fun a ha => by cases ha⟩⟩
    show (addExpression st "COUNT()" "COUNT(Id)" "count__all" vt).2.defs ++ _ = _
    rw [hdefs]
  | fieldAggregate m =>
    obtain ⟨hI, hcache, _, ⟨e, hlook, haeq⟩, hdefs, hconds, hmset, hexprs⟩ :=
      addExpression_spec st (buildAggregateKeyFA m) (buildAggregateExpression m)
        (sanitizeAlias (fnName m.fn ++ "__" ++ toLowerStr m.field)) m.valueType hInv
        ⟨.faSig m.fn m.field, rfl, rfl⟩
    refine ⟨⟨hI.exprInSet, hI.condInSet, hI.aliasNodup, hI.cacheVals, hI.cacheKeysNodup,
      hI.cacheSigs⟩, hcache,
      ⟨.direct (.fieldAggregate m) (addExpression st (buildAggregateKeyFA m)
          (buildAggregateExpression m)
          (sanitizeAlias (fnName m.fn ++ "__" ++ toLowerStr m.field)) m.valueType).1,
        ?_, rfl, ?_⟩⟩
    · show (addExpression st (buildAggregateKeyFA m) (buildAggregateExpression m)
        (sanitizeAlias (fnName m.fn ++ "__" ++ toLowerStr m.field)) m.valueType).2.defs ++ _ = _
      rw [hdefs]
    · intro a ha
      injection ha with ham
      subst ham
      refine ⟨e, hlook, ?_⟩
      rw [haeq]
  | countDistinct f ft lb vt =>
    obtain ⟨hI, hcache, _, ⟨e, hlook, haeq⟩, hdefs, hconds, hmset, hexprs⟩ :=
      addExpression_spec st (buildAggregateKeyCD f) ("COUNT_DISTINCT(" ++ f ++ ")")
        (sanitizeAlias ("countDistinct__" ++ toLowerStr f)) vt hInv ⟨.cdSig f, rfl, rfl⟩
    refine ⟨⟨hI.exprInSet, hI.condInSet, hI.aliasNodup, hI.cacheVals, hI.cacheKeysNodup,
      hI.cacheSigs⟩, hcache,
      ⟨.direct (.countDistinct f ft lb vt) (addExpression st (buildAggregateKeyCD f)
          ("COUNT_DISTINCT(" ++ f ++ ")")
          (sanitizeAlias ("countDistinct__" ++ toLowerStr f)) vt).1,
        ?_, rfl, fun a ha => by cases ha⟩⟩
    show (addExpression st (buildAggregateKeyCD f) ("COUNT_DISTINCT(" ++ f ++ ")")
      (sanitizeAlias ("countDistinct__" ++ toLowerStr f)) vt).2.defs ++ _ = _
    rw [hdefs]
  | ratioOf lb numerator denominator vt =>
    obtain ⟨hI1, ⟨ext1, hcache1⟩, _, _, hdefs1, hconds1, hmset1, hexprs1⟩ :=
      addExpression_spec st (buildAggregateKeyFA numerator)
        (buildAggregateExpression numerator)
        (sanitizeAlias (fnName numerator.fn ++ "__" ++ toLowerStr numerator.field))
        numerator.valueType hInv ⟨.faSig numerator.fn numerator.field, rfl, rfl⟩
    set r1A := addExpression st (buildAggregateKeyFA numerator)
      (buildAggregateExpression numerator)
      (sanitizeAlias (fnName numerator.fn ++ "__" ++ toLowerStr numerator.field))
      numerator.valueType with hr1A
    obtain ⟨hI2, ⟨ext2, hcache2⟩, _, _, hdefs2, hconds2, hmset2, hexprs2⟩ :=
      addExpression_spec r1A.2 (buildAggregateKeyFA denominator)
        (buildAggregateExpression denominator)
        (sanitizeAlias (fnName denominator.fn ++ "__" ++ toLowerStr denominator.field))
        denominator.valueType hI1 ⟨.faSig denominator.fn denominator.field, rfl, rfl⟩
    set r2A := addExpression r1A.2 (buildAggregateKeyFA denominator)
      (buildAggregateExpression denominator)
      (sanitizeAlias (fnName denominator.fn ++ "__" ++ toLowerStr denominator.field))
      denominator.valueType with hr2A
    have hcacheBoth : (buildStep objectName bw st
        (.ratioOf lb numerator denominator vt)).cache = st.cache ++ (ext1 ++ ext2) := by
      show r2A.2.cache = st.cache ++ (ext1 ++ ext2)
      rw [hcache2, hcache1, List.append_assoc]
    have hdefsEq : (buildStep objectName bw st
        (.ratioOf lb numerator denominator vt)).defs = st.defs ++
        [MetricDefinition.ratioOf (.ratioOf lb numerator denominator vt) r1A.1 r2A.1
          (uniqueAlias (sanitizeAlias ("ratio__" ++ fnName numerator.fn ++ "_" ++
            toLowerStr numerator.field ++ "_" ++ fnName denominator.fn ++ "_" ++
            toLowerStr denominator.field)) r2A.2.metricAliasSet)] := by
      show r2A.2.defs ++ _ = st.defs ++ _
      rw [hdefs2, hdefs1]
    exact ⟨⟨hI2.exprInSet, hI2.condInSet, hI2.aliasNodup, hI2.cacheVals, hI2.cacheKeysNodup,
      hI2.cacheSigs⟩, ⟨ext1 ++ ext2, hcacheBoth⟩,
      ⟨_, hdefsEq, rfl, fun a ha => by cases ha⟩⟩
  | countIf c vt =>
    have hfresh := uniqueAlias_fresh
      (sanitizeAlias ("countIf__" ++ hashCondition (normalizeCondition c))) st.aliasSet
    refine ⟨⟨?_, ?_, ?_, hInv.cacheVals, hInv.cacheKeysNodup, hInv.cacheSigs⟩,
      ⟨[], (List.append_nil _).symm⟩, ⟨_, rfl, rfl, fun a ha => by cases ha⟩⟩
    · intro e he
      exact addToSet_subset _ _ (hInv.exprInSet e he)
    · intro cp hcp
      rcases List.mem_append.mp hcp with hcp | hcp
      · exact addToSet_subset _ _ (hInv.condInSet cp hcp)
      · simp only [List.mem_singleton] at hcp
        subst hcp
        exact addToSet_mem _ _
    · show (st.expressions.map (fun e => e.aliasName) ++
        (st.conditionals ++ [_]).map (fun cp : ConditionalMetricPlan => cp.aliasName)).Nodup
      rw [List.map_append]
      apply aliasNodup_append_one hInv.aliasNodup
      intro hmem
      apply hfresh
      rcases List.mem_append.mp hmem with hm | hm
      · obtain ⟨e, he, heq⟩ := List.mem_map.mp hm
        have hmem2 : e.aliasName ∈ st.aliasSet := hInv.exprInSet e he
        rwa [heq] at hmem2
      · obtain ⟨cp, hcp, heq⟩ := List.mem_map.mp hm
        have hmem2 : cp.aliasName ∈ st.aliasSet := hInv.condInSet cp hcp
        rwa [heq] at hmem2
  | sumIf f ft c lb vt =>
    have hfresh := uniqueAlias_fresh
      (sanitizeAlias ("sumIf__" ++ toLowerStr f ++ "_" ++
        hashCondition (normalizeCondition c))) st.aliasSet
    refine ⟨⟨?_, ?_, ?_, hInv.cacheVals, hInv.cacheKeysNodup, hInv.cacheSigs⟩,
      ⟨[], (List.append_nil _).symm⟩, ⟨_, rfl, rfl, fun a ha => by cases ha⟩⟩
    · intro e he
      exact addToSet_subset _ _ (hInv.exprInSet e he)
    · intro cp hcp
      rcases List.mem_append.mp hcp with hcp | hcp
      · exact addToSet_subset _ _ (hInv.condInSet cp hcp)
      · simp only [List.mem_singleton] at hcp
        subst hcp
        exact addToSet_mem _ _
    · show (st.expressions.map (fun e => e.aliasName) ++
        (st.conditionals ++ [_]).map (fun cp : ConditionalMetricPlan => cp.aliasName)).Nodup
      rw [List.map_append]
      apply aliasNodup_append_one hInv.aliasNodup
      intro hmem
      apply hfresh
      rcases List.mem_append.mp hmem with hm | hm
      · obtain ⟨e, he, heq⟩ := List.mem_map.mp hm
        have hmem2 : e.aliasName ∈ st.aliasSet := hInv.exprInSet e he
        rwa [heq] at hmem2
      · obtain ⟨cp, hcp, heq⟩ := List.mem_map.mp hm
        have hmem2 : cp.aliasName ∈ st.aliasSet := hInv.condInSet cp hcp
        rwa [heq] at hmem2

/-- Invariant and definition-trace of the whole metric loop of `build()`:
the invariant holds at the end, the cache only grows, and the loop appends
exactly one definition per metric, in input order, storing the
condition-normalized metric; field-aggregate definitions carry the alias of
the final cache entry stored under their deduplication signature. -/
theorem buildLoop_spec (objectName : String) (bw : Option String) :
    ∀ (ms : List ResolvedMetric) (st : BuilderState), BuildInv st →
      BuildInv (ms.foldl (buildStep objectName bw) st) ∧
      (∃ ext, (ms.foldl (buildStep objectName bw) st).cache = st.cache ++ ext) ∧
      ∃ newDefs, (ms.foldl (buildStep objectName bw) st).defs = st.defs ++ newDefs ∧
        newDefs.length = ms.length ∧
        ∀ (i : Nat) (hi : i < ms.length) (hi2 : i < newDefs.length),
          (newDefs.get ⟨i, hi2⟩).metricOf = condNormalize (ms.get ⟨i, hi⟩) ∧
          ∀ a : ResolvedFieldAggregateMetric, ms.get ⟨i, hi⟩ = .fieldAggregate a →
            ∃ e, lookupKey (buildAggregateKeyFA a)
              (ms.foldl (buildStep objectName bw) st).cache = some e ∧
              newDefs.get ⟨i, hi2⟩ = .direct (.fieldAggregate a) e.aliasName := by
  intro ms
  induction ms with
  | nil =>
    intro st hInv
    refine ⟨hInv, ⟨[], (List.append_nil _).symm⟩, ⟨[], (List.append_nil _).symm, rfl, ?_⟩⟩
    intro i hi hi2
    exact absurd hi (by simp)
  | cons m rest ih =>
    intro st hInv
    obtain ⟨hI1, ⟨ext0, hc0⟩, ⟨d, hd, hdm, hdfa⟩⟩ :=
      buildStep_spec objectName bw st m hInv
    obtain ⟨hIF, ⟨ext1, hcF⟩, ⟨nd, hnd, hlen, hP⟩⟩ := ih (buildStep objectName bw st m) hI1
    have hfold : (m :: rest).foldl (buildStep objectName bw) st =
        rest.foldl (buildStep objectName bw) (buildStep objectName bw st m) := rfl
    rw [hfold]
    refine ⟨hIF, ⟨ext0 ++ ext1, ?_⟩, ⟨d :: nd, ?_, ?_, ?_⟩⟩
    · rw [hcF, hc0, List.append_assoc]
    · rw [hnd, hd, List.append_assoc, List.singleton_append]
    · simp [hlen]
    · intro i hi hi2
      match i with
      | 0 =>
        constructor
        · show d.metricOf = condNormalize m
          exact hdm
        · intro a ha
          have ham : m = .fieldAggregate a := ha
          obtain ⟨e, hlook, hde⟩ := hdfa a ham
          refine ⟨e, ?_, ?_⟩
          · rw [hcF]
            exact lookupKey_append_found hlook
          · show d = _
            rw [hde, ham]
      | Nat.succ j =>
        have hj : j < rest.length := by
          simp only [List.length_cons] at hi
          omega
        have hj2 : j < nd.length := by
          simp only [List.length_cons] at hi2
          omega
        exact hP j hj hj2

/-- C5 (amended): within the shared-alias namespace of one plan — the
aliases of the shared Aggregate Expressions together with the aliases of the
Conditional Metric Plans — all aliases are pairwise distinct.  (The
metric-definition aliases are not pairwise distinct in general: see the
counterexample with two identical `sum:Amount` metrics.) -/
theorem c5_expression_alias_uniqueness (objectName : String)
    (metrics : List ResolvedMetric) (w : Option String) (p : AggregatePlan)
    (hbuild : build objectName metrics w = .ok p) :
    (p.expressions.map (fun e => e.aliasName) ++
      p.conditionalMetrics.map (fun c => c.aliasName)).Nodup := by
  unfold build at hbuild
  by_cases hm : metrics = []
  · rw [if_pos hm] at hbuild
    cases hbuild
  · rw [if_neg hm] at hbuild
    injection hbuild with hp
    subst hp
    exact (buildLoop_spec objectName (buildWhereClause w) metrics initialBuilderState
      buildInv_initial).1.aliasNodup

/-- C10: the plan's metric definitions are in one-to-one positional
correspondence with the input metrics — one definition per metric, in input
order, each storing the (condition-normalized) input metric. -/
theorem c10_definitions_in_input_order (objectName : String)
    (metrics : List ResolvedMetric) (w : Option String) (p : AggregatePlan)
    (hbuild : build objectName metrics w = .ok p) :
    p.metrics.length = metrics.length ∧
    ∀ (i : Nat) (hi : i < metrics.length) (hi2 : i < p.metrics.length),
      (p.metrics.get ⟨i, hi2⟩).metricOf = condNormalize (metrics.get ⟨i, hi⟩) := by
  unfold build at hbuild
  by_cases hm : metrics = []
  · rw [if_pos hm] at hbuild
    cases hbuild
  · rw [if_neg hm] at hbuild
    injection hbuild with hp
    subst hp
    obtain ⟨_, _, ⟨nd, hnd, hlen, hP⟩⟩ := buildLoop_spec objectName (buildWhereClause w)
      metrics initialBuilderState buildInv_initial
    have hdefs : (metrics.foldl (buildStep objectName (buildWhereClause w))
        initialBuilderState).defs = nd := hnd
    constructor
    · show (metrics.foldl (buildStep objectName (buildWhereClause w))
        initialBuilderState).defs.length = metrics.length
      rw [hdefs]
      exact hlen
    · intro i hi hi2
      have hi2' : i < nd.length := by
        rw [← hdefs]
        exact hi2
      have hget := List.get_of_eq hdefs ⟨i, hi2⟩
      show ((metrics.foldl (buildStep objectName (buildWhereClause w))
        initialBuilderState).defs.get ⟨i, hi2⟩).metricOf = _
      rw [hget]
      exact (hP i hi hi2').1

/-- C4: when two metrics of the input list are field aggregates of the same
function and field, the plan holds exactly one shared Aggregate Expression
with that signature's SOQL text, and both metrics' definitions reference
that single expression's alias. -/
theorem c4_dedup_shared_expression (objectName : String)
    (metrics : List ResolvedMetric) (w : Option String) (p : AggregatePlan)
    (i j : Nat) (hi : i < metrics.length) (hj : j < metrics.length)
    (a b : ResolvedFieldAggregateMetric)
    (hbuild : build objectName metrics w = .ok p)
    (hne : i ≠ j)
    (hia : metrics.get ⟨i, hi⟩ = .fieldAggregate a)
    (hjb : metrics.get ⟨j, hj⟩ = .fieldAggregate b)
    (hfn : a.fn = b.fn) (hfield : a.field = b.field) :
    ∃ e ∈ p.expressions,
      e.soql = buildAggregateExpression a ∧
      (∀ e2 ∈ p.expressions, e2.soql = e.soql → e2 = e) ∧
      ∃ (hi2 : i < p.metrics.length) (hj2 : j < p.metrics.length),
        (p.metrics.get ⟨i, hi2⟩).aliasNameOf = e.aliasName ∧
        (p.metrics.get ⟨j, hj2⟩).aliasNameOf = e.aliasName := by
  unfold build at hbuild
  by_cases hm : metrics = []
  · rw [if_pos hm] at hbuild
    cases hbuild
  · rw [if_neg hm] at hbuild
    injection hbuild with hp
    subst hp
    obtain ⟨hInvF, _, ⟨nd, hnd, hlen, hP⟩⟩ := buildLoop_spec objectName (buildWhereClause w)
      metrics initialBuilderState buildInv_initial
    have hdefs : (metrics.foldl (buildStep objectName (buildWhereClause w))
        initialBuilderState).defs = nd := hnd
    have hi2nd : i < nd.length := by rw [hlen]; exact hi
    have hj2nd : j < nd.length := by rw [hlen]; exact hj
    obtain ⟨e1, hlook1, hd1⟩ := (hP i hi hi2nd).2 a hia
    obtain ⟨e2, hlook2, hd2⟩ := (hP j hj hj2nd).2 b hjb
    have hkey : buildAggregateKeyFA a = buildAggregateKeyFA b := by
      unfold buildAggregateKeyFA
      rw [hfn, hfield]
    have he12 : e1 = e2 := by
      rw [hkey] at hlook1
      exact Option.some.inj (hlook1.symm.trans hlook2)
    have hmem1 : (buildAggregateKeyFA a, e1) ∈ (metrics.foldl
        (buildStep objectName (buildWhereClause w)) initialBuilderState).cache :=
      lookupKey_mem hlook1
    have hexpr1 : e1 ∈ (metrics.foldl
        (buildStep objectName (buildWhereClause w)) initialBuilderState).expressions := by
      rw [← hInvF.cacheVals]
      exact List.mem_map_of_mem Prod.snd hmem1
    obtain ⟨sig, hsk, hss⟩ := hInvF.cacheSigs _ hmem1
    have hsig : sig = .faSig a.fn a.field := by
      apply sigKey_inj
      rw [← hsk]
      rfl
    have hsoql : e1.soql = buildAggregateExpression a := by
      rw [hss, hsig]
      rfl
    refine ⟨e1, hexpr1, hsoql, ?_, ?_⟩
    · intro e3 he3 hs3
      rw [← hInvF.cacheVals] at he3
      obtain ⟨kv, hkv, hkve⟩ := List.mem_map.mp he3
      obtain ⟨sig3, hk3, hs3'⟩ := hInvF.cacheSigs kv hkv
      have hsig3 : sig3 = .faSig a.fn a.field := by
        apply sigSoql_inj
        rw [← hs3', hkve, hs3, hsoql]
        rfl
      have hkv1 : kv.1 = buildAggregateKeyFA a := by
        rw [hk3, hsig3]
        rfl
      have hkvmem : (buildAggregateKeyFA a, e3) ∈ (metrics.foldl
          (buildStep objectName (buildWhereClause w)) initialBuilderState).cache := by
        have : kv = (buildAggregateKeyFA a, e3) := by
          cases kv
          simp_all
        rw [← this]
        exact hkv
      exact keys_nodup_unique hInvF.cacheKeysNodup hkvmem hmem1
    · have hi2 : i < (metrics.foldl (buildStep objectName (buildWhereClause w))
          initialBuilderState).defs.length := by
        rw [hdefs]
        exact hi2nd
      have hj2 : j < (metrics.foldl (buildStep objectName (buildWhereClause w))
          initialBuilderState).defs.length := by
        rw [hdefs]
        exact hj2nd
      refine ⟨hi2, hj2, ?_, ?_⟩
      · show ((metrics.foldl (buildStep objectName (buildWhereClause w))
          initialBuilderState).defs.get ⟨i, hi2⟩).aliasNameOf = e1.aliasName
        rw [List.get_of_eq hdefs ⟨i, hi2⟩]
        show (nd.get ⟨i, hi2nd⟩).aliasNameOf = _
        rw [hd1]
        rfl
      · show ((metrics.foldl (buildStep objectName (buildWhereClause w))
          initialBuilderState).defs.get ⟨j, hj2⟩).aliasNameOf = e1.aliasName
        rw [List.get_of_eq hdefs ⟨j, hj2⟩]
        show (nd.get ⟨j, hj2nd⟩).aliasNameOf = _
        rw [hd2, ← he12]
        rfl

/-- Witness for C4 on two identical `sum:Amount` metrics. -/
theorem c4_witness :
    build "Opportunity" [sumAmountMetric, sumAmountMetric] none = .ok c4planV ∧
    (0 : Nat) ≠ 1 ∧
    [sumAmountMetric, sumAmountMetric].get ⟨0, by decide⟩ = .fieldAggregate amountRFA ∧
    (∃ e ∈ c4planV.expressions, e.soql = buildAggregateExpression amountRFA ∧
      (∀ e2 ∈ c4planV.expressions, e2.soql = e.soql → e2 = e) ∧
      ∃ (hi2 : 0 < c4planV.metrics.length) (hj2 : 1 < c4planV.metrics.length),
        (c4planV.metrics.get ⟨0, hi2⟩).aliasNameOf = e.aliasName ∧
        (c4planV.metrics.get ⟨1, hj2⟩).aliasNameOf = e.aliasName) :=
  ⟨rfl, by decide, rfl,
    c4_dedup_shared_expression "Opportunity" [sumAmountMetric, sumAmountMetric] none c4planV
      0 1 (by decide) (by decide) amountRFA amountRFA rfl (by decide) rfl rfl rfl rfl⟩

/-- Witness for C5 (amended) on the `[count, sum:Amount]` plan. -/
theorem c5_witness :
    build "Opportunity" [.count .number, sumAmountMetric] none = .ok c5planV ∧
    (c5planV.expressions.map (fun e => e.aliasName) ++
      c5planV.conditionalMetrics.map (fun c => c.aliasName)).Nodup :=
  ⟨rfl, c5_expression_alias_uniqueness "Opportunity" [.count .number, sumAmountMetric] none
    c5planV rfl⟩

/-- Witness for C10 on the `[count, sum:Amount]` plan. -/
theorem c10_witness :
    build "Opportunity" [.count .number, sumAmountMetric] none = .ok c10planV ∧
    (c10planV.metrics.length = [ResolvedMetric.count .number, sumAmountMetric].length ∧
      ∀ (i : Nat) (hi : i < [ResolvedMetric.count .number, sumAmountMetric].length)
        (hi2 : i < c10planV.metrics.length),
        (c10planV.metrics.get ⟨i, hi2⟩).metricOf =
          condNormalize ([ResolvedMetric.count .number, sumAmountMetric].get ⟨i, hi⟩)) :=
  ⟨rfl, c10_definitions_in_input_order "Opportunity" [.count .number, sumAmountMetric] none
    c10planV rfl⟩
